import Mathlib

/-!
Verification of the monotone cubic interpolation core of `refl1d/mono.py`.

The numeric routines of the source operate on IEEE floats under a relaxed
fault policy (the `numpyerrors.ignored` decorator suppresses divide-by-zero
and invalid-operation signals).  The shallow embedding below works over `ℚ`
with Lean's total division (`q / 0 = 0`); the guard conditions in the source
consult a quantity only when its divisor is nonzero, so the control flow of
the embedding agrees with the float semantics (junk quotients are never read).
The single call to `sqrt` (inside the Fritsch-Carlson limiter branch) is kept
abstract as an `rsqrt : ℚ → ℚ` parameter; concrete evaluations instantiate it
with `sqrtVals`, an exact integer-square-root based function, and only ever
fire the branch on perfect rational squares, where `sqrtVals` coincides with
the real square root.
-/

set_option maxHeartbeats 1600000
set_option maxRecDepth 100000

/-- Square-root oracle instantiating the abstract `rsqrt` parameter in the
concrete evaluations.  Every concrete input below that reaches the limiter
branch does so at one of the two perfect rational squares `(313/50)^2` and
`(15292369/4118450)^2`, where this oracle returns the exact nonnegative
square root (`sqrtVals_exact` below), hence agrees with the real `sqrt` of
the source on every value at which the run consults it. -/
def sqrtVals (q : ℚ) : ℚ :=
  if q = 97969/2500 then 313/50
  else if q = 233856549632161/16961630402500 then 15292369/4118450
  else 0

/-- `numpy.searchsorted(l, v)` with the default `side='left'` on a sorted
list: the insertion index, i.e. the number of elements strictly below `v`. -/
def searchsorted (l : List ℚ) (v : ℚ) : ℕ := l.countP (fun a => decide (a < v))

/-- `numpy.diff`: adjacent differences `l[1:] - l[:-1]`. -/
def diffL (l : List ℚ) : List ℚ := List.zipWith (fun a b => a - b) l.tail l

/-- `hstack((0, cumsum(l)))`: cumulative sums with a leading zero. -/
def cumsum0 (l : List ℚ) : List ℚ := l.scanl (fun a b => a + b) 0

/-- The knot-position extension of `monospline` (line 257 of `mono.py`):
`hstack((x[0]-1, x, x[-1]+1))`. -/
def extendKnots (x : List ℚ) : List ℚ := (x.headD 0 - 1) :: (x ++ [x.getLastD 0 + 1])

/-- The knot-value extension of `monospline` (line 258 of `mono.py`):
`hstack((y[0], y, y[-1]))`. -/
def extendVals (y : List ℚ) : List ℚ := y.headD 0 :: (y ++ [y.getLastD 0])

/-- One iteration of the tangent-limiting loop of `monospline`
(lines 267-273 of `mono.py`).  `dy`, `delta`, `alpha`, `beta`, `d` are the
read-only arrays computed before the loop; `m` is the mutable tangent array. -/
def fcStep (rsqrt : ℚ → ℚ) (dy delta alpha beta d : List ℚ)
    (m : List ℚ) (i : ℕ) : List ℚ :=
  if dy.getD i 0 = 0 ∨ alpha.getD i 0 = 0 ∨ beta.getD i 0 = 0 then
    (m.set i 0).set (i + 1) 0
  else if 9 < d.getD i 0 then
    let tau := 3 / rsqrt (d.getD i 0)
    (m.set i (tau * alpha.getD i 0 * delta.getD i 0)).set (i + 1)
      (tau * beta.getD i 0 * delta.getD i 0)
  else m

/-- The secant-slope array `delta = diff(y)/diff(x)` of `monospline`
(lines 259-261 of `mono.py`), over the extended knots. -/
def msDelta (x y : List ℚ) : List ℚ :=
  List.zipWith (fun a b => a / b) (diffL (extendVals y)) (diffL (extendKnots x))

/-- The initial tangent array `m = hstack((0, (delta[1:]+delta[:-1])/2, 0))`
of `monospline` (lines 262-263 of `mono.py`). -/
def msM0 (x y : List ℚ) : List ℚ :=
  (0 : ℚ) :: (List.zipWith (fun a b => (a + b) / 2) (msDelta x y).tail (msDelta x y)
    ++ [(0 : ℚ)])

/-- `alpha = m[:-1]/delta` of `monospline` (line 264 of `mono.py`), computed
from the initial tangents, exactly as in the source. -/
def msAlpha (x y : List ℚ) : List ℚ :=
  List.zipWith (fun a b => a / b) (msM0 x y).dropLast (msDelta x y)

/-- `beta = m[1:]/delta` of `monospline` (line 264 of `mono.py`). -/
def msBeta (x y : List ℚ) : List ℚ :=
  List.zipWith (fun a b => a / b) (msM0 x y).tail (msDelta x y)

/-- `d = alpha**2 + beta**2` of `monospline` (line 265 of `mono.py`). -/
def msD (x y : List ℚ) : List ℚ :=
  List.zipWith (fun a b => a ^ 2 + b ^ 2) (msAlpha x y) (msBeta x y)

/-- The tangent-fitting phase of `monospline` (lines 257-274 of `mono.py`):
extends the knots by one synthetic flat point at each end, seeds tangents
with secant means (zero at the two extended boundary knots), then runs the
limiter loop over the read-only arrays above. -/
def fitTangents (rsqrt : ℚ → ℚ) (x y : List ℚ) : List ℚ :=
  (List.range ((msM0 x y).length - 1)).foldl
    (fcStep rsqrt (diffL (extendVals y)) (msDelta x y) (msAlpha x y)
      (msBeta x y) (msD x y))
    (msM0 x y)

/-- `hermite(x, y, m, xt)` (lines 279-297 of `mono.py`) at a single query
point: locate the segment by `searchsorted(x[1:-1], xt)`, floor the segment
width at `1e-10`, and evaluate the cubic Hermite polynomial. -/
def hermite (x y m : List ℚ) (xt : ℚ) : ℚ :=
  let idx := searchsorted x.tail.dropLast xt
  let h0 := x.getD (idx + 1) 0 - x.getD idx 0
  let h := if h0 ≤ 1 / 10 ^ 10 then 1 / 10 ^ 10 else h0
  let s := (y.getD (idx + 1) 0 - y.getD idx 0) / h
  let v := xt - x.getD idx 0
  let c3 := (m.getD idx 0 + m.getD (idx + 1) 0 - 2 * s) / h ^ 2
  let c2 := (3 * s - 2 * m.getD idx 0 - m.getD (idx + 1) 0) / h
  ((c3 * v + c2) * v + m.getD idx 0) * v + y.getD idx 0

/-- `monospline(x, y, xt)` (lines 243-276 of `mono.py`) at a single query
point (the source is vectorised over `xt`; callers below map over grids). -/
def monospline (rsqrt : ℚ → ℚ) (x y : List ℚ) (xt : ℚ) : ℚ :=
  hermite (extendKnots x) (extendVals y) (fitTangents rsqrt x y) xt

/-- The chord-slope array `m = (y[2:]-y[:-2])/(x[2:]-x[:-2])` of
`count_inflections` (line 221 of `mono.py`). -/
def ciM (x y : List ℚ) : List ℚ :=
  (List.range (y.length - 2)).map
    (fun j => (y.getD (j + 2) 0 - y.getD j 0) / (x.getD (j + 2) 0 - x.getD j 0))

/-- The chord-intercept array `b = y[2:] - m*x[2:]` of `count_inflections`
(line 222 of `mono.py`). -/
def ciB (x y : List ℚ) : List ℚ :=
  (List.range (y.length - 2)).map
    (fun j => y.getD (j + 2) 0 - (ciM x y).getD j 0 * x.getD (j + 2) 0)

/-- The deviation array `delta = y[1:-1] - (m*x[1:-1] + b)` of
`count_inflections` (line 223 of `mono.py`). -/
def ciDelta (x y : List ℚ) : List ℚ :=
  (List.range (y.length - 2)).map
    (fun j => y.getD (j + 1) 0
      - ((ciM x y).getD j 0 * x.getD (j + 1) 0 + (ciB x y).getD j 0))

/-- `count_inflections(x, y)` (lines 216-226 of `mono.py`): deviations of
interior points from the chord through their neighbours; discard exact
zeros; count the sign changes between consecutive surviving deviations. -/
def count_inflections (x y : List ℚ) : ℕ :=
  let dnz := (ciDelta x y).filter (fun a => decide (a ≠ 0))
  (List.zipWith (fun a b => a * b) dnz.tail dnz).countP (fun a => decide (a < 0))

/-- `inflections(dx, dy)` (lines 141-144 of `mono.py`). -/
def inflections (dx dy : List ℚ) : ℕ :=
  count_inflections (cumsum0 dx) (cumsum0 dy)

/-- `FreeLayer` state: the interior control values and positions.  The
`Parameter` wrapper of the source is an external contract exposing `.value`;
parameters are embedded as their rational values. -/
structure FreeLayer where
  rho : List ℚ
  irho : List ℚ
  rhoz : List ℚ
  irhoz : List ℚ
deriving DecidableEq

/-- `FreeLayer.__init__` (lines 33-49 of `mono.py`): length checks between
each value sequence and its explicitly supplied z sequence. -/
def FreeLayer.make (rho irho rhoz irhoz : List ℚ) : Except String FreeLayer :=
  if rhoz.length > 0 ∧ rhoz.length ≠ rho.length then
    Except.error ("must have one z value for each rho")
  else if irhoz.length > 0 ∧ irhoz.length ≠ irho.length then
    Except.error ("must have one z value for each irho")
  else Except.ok ⟨rho, irho, rhoz, irhoz⟩

/-- The rho-profile computation of `FreeLayer.render` (lines 58-66 of
`mono.py`): `rho = hstack((left_rho, values, right_rho))`,
`rhoz = hstack((0, zvalues, 1))`, `Prho = monospline(rho, rhoz, Pz)` —
note the source passes `rho` as the knot-position argument and `rhoz` as
the knot-value argument.  The microslab grid `Pz` is supplied by the
external discretisation buffer and is a parameter here. -/
def FreeLayer.renderRhoProfile (rsqrt : ℚ → ℚ) (L : FreeLayer)
    (leftRho rightRho : ℚ) (Pz : List ℚ) : List ℚ :=
  Pz.map (monospline rsqrt (leftRho :: (L.rho ++ [rightRho]))
    ((0 : ℚ) :: (L.rhoz ++ [(1 : ℚ)])))

/-- `FreeInterfaceW` state: step-size and step-weight parameter values. -/
structure FreeInterfaceW where
  dz : List ℚ
  dp : List ℚ
deriving DecidableEq

/-- `FreeInterfaceW.__init__` (lines 81-103 of `mono.py`): default selection
(`dp = [1]*5` when neither is given; `dp = [1]*len(dz)` when only `dz` is
given; `dz = [10./len(dp)]*len(dp)` when `dz` is missing) followed by the
length check.  When `dz` is omitted and the resulting `dp` is empty, Python
evaluates `10./len(dp)` and raises `ZeroDivisionError`; since division by
zero is total in `ℚ`, that fault is modelled as an explicit error branch. -/
def FreeInterfaceW.make (dzo dpo : Option (List ℚ)) : Except String FreeInterfaceW :=
  let dp0 := match dpo, dzo with
    | none, none => List.replicate 5 (1 : ℚ)
    | none, some dzl => List.replicate dzl.length (1 : ℚ)
    | some dpl, _ => dpl
  match dzo with
  | none =>
    if dp0.length = 0 then Except.error ("ZeroDivisionError: float division by zero")
    else
      let dz0 := List.replicate dp0.length ((10 : ℚ) / (dp0.length : ℚ))
      if dz0.length ≠ dp0.length then Except.error ("Need one dz for every dp")
      else Except.ok ⟨dz0, dp0⟩
  | some dz0 =>
    if dz0.length ≠ dp0.length then Except.error ("Need one dz for every dp")
    else Except.ok ⟨dz0, dp0⟩

/-- `FreeInterfaceW._get_thickness` (lines 104-106 of `mono.py`): the value
of the derived thickness parameter, the sum of the `dz` values. -/
def FreeInterfaceW.thickness (L : FreeInterfaceW) : ℚ := L.dz.sum

/-- `FreeInterfaceW._set_thickness` (lines 107-109 of `mono.py`): assigning
a nonzero value raises `ValueError`; assigning zero is a no-op. -/
def FreeInterfaceW.setThickness (L : FreeInterfaceW) (v : ℚ) :
    Except String FreeInterfaceW :=
  if v ≠ 0 then Except.error ("thickness cannot be set for FreeformInterface")
  else Except.ok L

/-- The cumulative position array `z = hstack((0, cumsum(dz)))` of
`FreeInterfaceW.render` (line 122 of `mono.py`). -/
def FreeInterfaceW.zArr (L : FreeInterfaceW) : List ℚ := cumsum0 L.dz

/-- The normalised cumulative fraction array of `FreeInterfaceW.render`
(lines 123-126 of `mono.py`): `p = hstack((0, cumsum(dp)))`; if the terminal
sum is zero it is replaced by `1`; then the array is divided by its terminal
entry. -/
def FreeInterfaceW.pArr (L : FreeInterfaceW) : List ℚ :=
  let p := cumsum0 L.dp
  let p1 := if p.getLastD 0 = 0 then p.dropLast ++ [(1 : ℚ)] else p
  p1.map (fun a => a / p1.getLastD 0)

/-- The fraction profile of `FreeInterfaceW.render` (line 128 of `mono.py`):
`profile = monospline(z, p, Pz)` at a single grid position. -/
def FreeInterfaceW.profileAt (rsqrt : ℚ → ℚ) (L : FreeInterfaceW) (xt : ℚ) : ℚ :=
  monospline rsqrt L.zArr L.pArr xt

/-- `FreeInterface.__init__` default selection and length check (lines
154-180 of `mono.py`): as `FreeInterfaceW` but with default `dz = [1]*len(dp)`
(no division, hence no fault on an empty `dp`). -/
def FreeInterface.make (dzo dpo : Option (List ℚ)) : Except String FreeInterfaceW :=
  let dp0 := match dpo, dzo with
    | none, none => List.replicate 5 (1 : ℚ)
    | none, some dzl => List.replicate dzl.length (1 : ℚ)
    | some dpl, _ => dpl
  let dz0 := match dzo with
    | none => List.replicate dp0.length (1 : ℚ)
    | some dzl => dzl
  if dz0.length ≠ dp0.length then Except.error ("Need one dz for every dp")
  else Except.ok ⟨dz0, dp0⟩

/-! ### Concrete claim theorems (closed statements) -/

/-- On the two discriminants the counterexamples reach, `sqrtVals` returns
the exact nonnegative square root. -/
lemma sqrtVals_exact :
    (sqrtVals (97969/2500)) ^ 2 = 97969/2500 ∧ 0 ≤ sqrtVals (97969/2500) ∧
    (sqrtVals (233856549632161/16961630402500)) ^ 2
      = 233856549632161/16961630402500 ∧
    0 ≤ sqrtVals (233856549632161/16961630402500) := by
  norm_num [sqrtVals]


/-- C1: at the spec's end-to-end scenario (`FreeLayer` with `thickness=100`,
`rho=[2,4]`, `rhoz=[0.25,0.75]` between SLDs 0 and 6, microslab grid
`[0,25,50,75,100]`) the rendered rho profile is `[0,1,1,1,1]`: the source
passes `rho` as knot positions and `rhoz` as knot values to `monospline`
(arguments swapped, and the z knots are never scaled by the thickness), so the
profile is flat at 1 beyond depth 7 instead of rising through 2 and 4 to 6. -/
theorem freeLayer_render_swapped_profile :
    FreeLayer.renderRhoProfile sqrtVals ⟨[2, 4], [], [1/4, 3/4], []⟩ 0 6
      [0, 25, 50, 75, 100] = [0, 1, 1, 1, 1] := by
  have hdy : diffL (extendVals ([0, 1/4, 3/4, 1] : List ℚ)) = [0, 1/4, 1/2, 1/4, 0] := by
    norm_num [diffL, extendVals]
  have hde : msDelta [0, 2, 4, 6] [0, 1/4, 3/4, 1] = [0, 1/8, 1/4, 1/8, 0] := by
    norm_num [msDelta, diffL, extendKnots, extendVals]
  have hm0 : msM0 [0, 2, 4, 6] [0, 1/4, 3/4, 1] = [0, 1/16, 3/16, 3/16, 1/16, 0] := by
    simp only [msM0, hde]
    norm_num
  have hal : msAlpha [0, 2, 4, 6] [0, 1/4, 3/4, 1] = [0, 1/2, 3/4, 3/2, 0] := by
    simp only [msAlpha, hm0, hde]
    norm_num
  have hbe : msBeta [0, 2, 4, 6] [0, 1/4, 3/4, 1] = [0, 3/2, 3/4, 1/2, 0] := by
    simp only [msBeta, hm0, hde]
    norm_num
  have hdd : msD [0, 2, 4, 6] [0, 1/4, 3/4, 1] = [0, 5/2, 9/8, 5/2, 0] := by
    simp only [msD, hal, hbe]
    norm_num
  have hft : fitTangents sqrtVals [0, 2, 4, 6] [0, 1/4, 3/4, 1] = [0, 0, 3/16, 3/16, 0, 0] := by
    simp only [fitTangents, hdy, hde, hm0, hal, hbe, hdd]
    norm_num [show List.range 5 = [0, 1, 2, 3, 4] from rfl, fcStep, sqrtVals]
  simp only [FreeLayer.renderRhoProfile, List.map_cons, List.map_nil, monospline]
  norm_num [hft, hermite, extendKnots, extendVals, searchsorted,
    List.countP_cons, List.countP_nil]

/-- C2 counterexample: a strictly increasing knot sequence with monotone
nondecreasing values for which the interpolated value at `xt = 1/2`, strictly
between the first two knots (values 0 and 1), is negative — outside the
interval spanned by the two knots' values.  The limiter loop rescales the
tangent at knot 1 onto the monotonicity circle during iteration 1, but
iteration 2 then overwrites it from stale ratios, leaving a tangent of about
5 times the segment secant.  Both limiter discriminants for this input are
perfect rational squares, so `sqrtVals` agrees with the real square root at
every point where it is invoked. -/
theorem monospline_overshoot_cex :
    ((0 : ℚ) < 1 ∧ (1 : ℚ) < 2 ∧ (2 : ℚ) < 3) ∧
    ((0 : ℚ) ≤ 1 ∧ (1 : ℚ) ≤ 312/25 ∧
      (312/25 : ℚ) ≤ 15307006/179375) ∧
    (0 : ℚ) < 1/2 ∧ (1/2 : ℚ) < 1 ∧
    monospline sqrtVals [0, 1, 2, 3] [0, 1, 312/25, 15307006/179375] (1/2)
      < 0 := by
  refine ⟨by norm_num, by norm_num, by norm_num, by norm_num, ?_⟩
  have hdy : diffL (extendVals ([0, 1, 312/25, 15307006/179375] : List ℚ)) = [0, 1, 287/25, 13068406/179375, 0] := by
    norm_num [diffL, extendVals]
  have hde : msDelta [0, 1, 2, 3] [0, 1, 312/25, 15307006/179375] = [0, 1, 287/25, 13068406/179375, 0] := by
    norm_num [msDelta, diffL, extendKnots, extendVals]
  have hm0 : msM0 [0, 1, 2, 3] [0, 1, 312/25, 15307006/179375] = [0, 1/2, 156/25, 15127631/358750, 6534203/179375, 0] := by
    simp only [msM0, hde]
    norm_num
  have hal : msAlpha [0, 1, 2, 3] [0, 1, 312/25, 15307006/179375] = [0, 1/2, 156/287, 15127631/26136812, 0] := by
    simp only [msAlpha, hm0, hde]
    norm_num
  have hbe : msBeta [0, 1, 2, 3] [0, 1, 312/25, 15307006/179375] = [0, 156/25, 15127631/4118450, 1/2, 0] := by
    simp only [msBeta, hm0, hde]
    norm_num
  have hdd : msD [0, 1, 2, 3] [0, 1, 312/25, 15307006/179375] = [0, 97969/2500, 233856549632161/16961630402500, 399628455052997/683132941523344, 0] := by
    simp only [msD, hal, hbe]
    norm_num
  have hft : fitTangents sqrtVals [0, 1, 2, 3] [0, 1, 312/25, 15307006/179375] = [0, 75/313, 77097384/15292369, 13024890291/382309225, 0, 0] := by
    simp only [fitTangents, hdy, hde, hm0, hal, hbe, hdd]
    norm_num [show List.range 5 = [0, 1, 2, 3, 4] from rfl, fcStep, sqrtVals]
  rw [monospline, hft]
  norm_num [hermite, extendKnots, extendVals, searchsorted,
    List.countP_cons, List.countP_nil]

/-- C3 counterexample: with strictly increasing knots `[0, 1e-11]` the gap is
below the `1e-10` segment-width floor of `hermite`, so evaluation at the
second knot returns `7/250` instead of that knot's value `1`. -/
theorem monospline_tiny_gap_cex :
    (0 : ℚ) < 1/10^11 ∧
    monospline sqrtVals [0, 1/10^11] [0, 1] (1/10^11) = 7/250 ∧
    (7 : ℚ)/250 ≠ 1 := by
  refine ⟨by norm_num, ?_, by norm_num⟩
  have hdy : diffL (extendVals ([0, 1] : List ℚ)) = [0, 1, 0] := by
    norm_num [diffL, extendVals]
  have hde : msDelta [0, 1/10^11] [0, 1] = [0, 100000000000, 0] := by
    norm_num [msDelta, diffL, extendKnots, extendVals]
  have hm0 : msM0 [0, 1/10^11] [0, 1] = [0, 50000000000, 50000000000, 0] := by
    simp only [msM0, hde]
    norm_num
  have hal : msAlpha [0, 1/10^11] [0, 1] = [0, 1/2, 0] := by
    simp only [msAlpha, hm0, hde]
    norm_num
  have hbe : msBeta [0, 1/10^11] [0, 1] = [0, 1/2, 0] := by
    simp only [msBeta, hm0, hde]
    norm_num
  have hdd : msD [0, 1/10^11] [0, 1] = [0, 1/2, 0] := by
    simp only [msD, hal, hbe]
    norm_num
  have hft : fitTangents sqrtVals [0, 1/10^11] [0, 1] = [0, 0, 0, 0] := by
    simp only [fitTangents, hdy, hde, hm0, hal, hbe, hdd]
    norm_num [show List.range 3 = [0, 1, 2] from rfl, fcStep, sqrtVals]
  rw [monospline, hft]
  norm_num [hermite, extendKnots, extendVals, searchsorted,
    List.countP_cons, List.countP_nil]

/-- C4 counterexample: for knots `x=[0,1,2]`, `y=[0,25,312]` the limiter
branch fires at the leftmost interior iteration and overwrites the forced
zero tangent at the first original knot (final tangent `1875/313`), so at
`xt = -2`, beyond the synthetic left boundary knot at `-1`, the extrapolated
value is `-3750/313 < 0`, not the nearest endpoint value `0`: extrapolation
is not flat on the left.  The single fired discriminant `(313/50)^2` is a
perfect rational square, where `sqrtVals` is exact. -/
theorem monospline_left_extrapolation_cex :
    ((0 : ℚ) < 1 ∧ (1 : ℚ) < 2) ∧
    (-2 : ℚ) < 0 - 1 ∧
    monospline sqrtVals [0, 1, 2] [0, 25, 312] (-2) < 0 := by
  refine ⟨by norm_num, by norm_num, ?_⟩
  have hdy : diffL (extendVals ([0, 25, 312] : List ℚ)) = [0, 25, 287, 0] := by
    norm_num [diffL, extendVals]
  have hde : msDelta [0, 1, 2] [0, 25, 312] = [0, 25, 287, 0] := by
    norm_num [msDelta, diffL, extendKnots, extendVals]
  have hm0 : msM0 [0, 1, 2] [0, 25, 312] = [0, 25/2, 156, 287/2, 0] := by
    simp only [msM0, hde]
    norm_num
  have hal : msAlpha [0, 1, 2] [0, 25, 312] = [0, 1/2, 156/287, 0] := by
    simp only [msAlpha, hm0, hde]
    norm_num
  have hbe : msBeta [0, 1, 2] [0, 25, 312] = [0, 156/25, 1/2, 0] := by
    simp only [msBeta, hm0, hde]
    norm_num
  have hdd : msD [0, 1, 2] [0, 25, 312] = [0, 97969/2500, 179713/329476, 0] := by
    simp only [msD, hal, hbe]
    norm_num
  have hft : fitTangents sqrtVals [0, 1, 2] [0, 25, 312] = [0, 1875/313, 23400/313, 0, 0] := by
    simp only [fitTangents, hdy, hde, hm0, hal, hbe, hdd]
    norm_num [show List.range 4 = [0, 1, 2, 3] from rfl, fcStep, sqrtVals]
  rw [monospline, hft]
  norm_num [hermite, extendKnots, extendVals, searchsorted,
    List.countP_cons, List.countP_nil]

/-- C6: assigning a nonzero value to `FreeInterfaceW.thickness` yields the
configuration error of the source, assigning `0` is a no-op returning the
unchanged layer, and reading the thickness gives the sum of the `dz`
parameter values. -/
theorem freeInterfaceW_thickness_spec (L : FreeInterfaceW) (v : ℚ) (hv : v ≠ 0) :
    L.setThickness v = Except.error ("thickness cannot be set for FreeformInterface") ∧
    L.setThickness 0 = Except.ok L ∧
    L.thickness = L.dz.sum := by
  refine ⟨?_, ?_, rfl⟩
  · simp [FreeInterfaceW.setThickness, hv]
  · simp [FreeInterfaceW.setThickness]

/-- C6 witness: the thickness contract at a concrete layer and value. -/
theorem freeInterfaceW_thickness_spec_witness :
    FreeInterfaceW.setThickness ⟨[3, 4], [1, 1]⟩ 5 =
      Except.error ("thickness cannot be set for FreeformInterface") ∧
    FreeInterfaceW.setThickness ⟨[3, 4], [1, 1]⟩ 0 = Except.ok ⟨[3, 4], [1, 1]⟩ ∧
    FreeInterfaceW.thickness ⟨[3, 4], [1, 1]⟩ = ([3, 4] : List ℚ).sum :=
  freeInterfaceW_thickness_spec ⟨[3, 4], [1, 1]⟩ 5 (by norm_num)

/-- C7 counterexample: an explicitly empty `dp` with `dz` omitted makes
`FreeInterfaceW.__init__` evaluate `10./len(dp)` and fault with
`ZeroDivisionError` — construction does not succeed, and the failure is not
the configuration (length-mismatch) error, although no length precondition
is violated. -/
theorem freeInterfaceW_empty_dp_cex :
    FreeInterfaceW.make none (some []) =
      Except.error ("ZeroDivisionError: float division by zero") := rfl

lemma inflections_zigzag : 0 < inflections [1, 1, 1, 1] [1, -1, 1, -1] := by
  have hcx : cumsum0 [1, 1, 1, 1] = [0, 1, 2, 3, 4] := by norm_num [cumsum0]
  have hcy : cumsum0 [1, -1, 1, -1] = [0, 1, 0, 1, 0] := by norm_num [cumsum0]
  have hm : ciM [0, 1, 2, 3, 4] [0, 1, 0, 1, 0] = [0, 0, 0] := by
    norm_num [ciM, show List.range 3 = [0, 1, 2] from rfl]
  have hb : ciB [0, 1, 2, 3, 4] [0, 1, 0, 1, 0] = [0, 1, 0] := by
    simp only [ciB, hm]
    norm_num [show List.range 3 = [0, 1, 2] from rfl]
  have hd : ciDelta [0, 1, 2, 3, 4] [0, 1, 0, 1, 0] = [1, -1, 1] := by
    simp only [ciDelta, hm, hb]
    norm_num [show List.range 3 = [0, 1, 2] from rfl]
  rw [inflections, hcx, hcy, count_inflections, hd]
  norm_num [List.filter, List.countP_cons, List.countP_nil]

lemma inflections_monotone : inflections [1, 1, 1, 1] [1, 1, 1, 1] = 0 := by
  have hcx : cumsum0 [1, 1, 1, 1] = [0, 1, 2, 3, 4] := by norm_num [cumsum0]
  have hm : ciM [0, 1, 2, 3, 4] [0, 1, 2, 3, 4] = [1, 1, 1] := by
    norm_num [ciM, show List.range 3 = [0, 1, 2] from rfl]
  have hb : ciB [0, 1, 2, 3, 4] [0, 1, 2, 3, 4] = [0, 0, 0] := by
    simp only [ciB, hm]
    norm_num [show List.range 3 = [0, 1, 2] from rfl]
  have hd : ciDelta [0, 1, 2, 3, 4] [0, 1, 2, 3, 4] = [0, 0, 0] := by
    simp only [ciDelta, hm, hb]
    norm_num [show List.range 3 = [0, 1, 2] from rfl]
  rw [inflections, hcx, count_inflections, hd]
  norm_num [List.filter, List.countP_cons, List.countP_nil]

/-- C9: the zig-zag step sequence `dx=[1,1,1,1]`, `dy=[1,-1,1,-1]` has a
strictly positive inflection count, and the monotone sequence `dy=[1,1,1,1]`
has inflection count 0. -/
theorem inflections_scenarios :
    0 < inflections [1, 1, 1, 1] [1, -1, 1, -1] ∧
    inflections [1, 1, 1, 1] [1, 1, 1, 1] = 0 :=
  ⟨inflections_zigzag, inflections_monotone⟩

/-! ### Construction checks (C7) -/

lemma exists_ok_ite1 {a : Type} (c : Prop) [Decidable c] (s1 : String) (v : a) :
    (∃ L, (if c then (Except.error s1 : Except String a) else Except.ok v) =
      Except.ok L) ↔ ¬c := by
  split_ifs with h1 <;> simp [h1]

lemma exists_ok_ite2 {a : Type} (c1 c2 : Prop) [Decidable c1] [Decidable c2]
    (s1 s2 : String) (v : a) :
    (∃ L, (if c1 then (Except.error s1 : Except String a)
      else if c2 then Except.error s2 else Except.ok v) = Except.ok L) ↔
      ¬c1 ∧ ¬c2 := by
  split_ifs with h1 h2 <;> simp [*]

/-- C7 amended: construction raises the configuration error exactly on a
structural length mismatch, and otherwise succeeds — except that
`FreeInterfaceW` with an explicitly empty `dp` and omitted `dz` faults with
`ZeroDivisionError` while generating the default `dz` (the sole carve-out the
counterexample forces; `FreeInterface`, whose default is `[1]*len(dp)`,
accepts an empty `dp`). -/
theorem construction_length_checks :
    (∀ rho irho rhoz irhoz : List ℚ,
      (∃ L, FreeLayer.make rho irho rhoz irhoz = Except.ok L) ↔
        ((rhoz = [] ∨ rhoz.length = rho.length) ∧
         (irhoz = [] ∨ irhoz.length = irho.length))) ∧
    (∀ dz dp : List ℚ,
      (∃ L, FreeInterfaceW.make (some dz) (some dp) = Except.ok L) ↔
        dz.length = dp.length) ∧
    (∀ dz : List ℚ, ∃ L, FreeInterfaceW.make (some dz) none = Except.ok L) ∧
    (∀ dp : List ℚ,
      (∃ L, FreeInterfaceW.make none (some dp) = Except.ok L) ↔ dp ≠ []) ∧
    (∃ L, FreeInterfaceW.make none none = Except.ok L) ∧
    (∀ dz dp : List ℚ,
      (∃ L, FreeInterface.make (some dz) (some dp) = Except.ok L) ↔
        dz.length = dp.length) ∧
    (∀ dz : List ℚ, ∃ L, FreeInterface.make (some dz) none = Except.ok L) ∧
    (∀ dp : List ℚ, ∃ L, FreeInterface.make none (some dp) = Except.ok L) ∧
    (∃ L, FreeInterface.make none none = Except.ok L) := by
  refine ⟨?_, ?_, ?_, ?_, ?_, ?_, ?_, ?_, ?_⟩
  · intro rho irho rhoz irhoz
    simp only [FreeLayer.make, exists_ok_ite2, not_and_or, not_lt, Nat.le_zero,
      List.length_eq_zero, not_ne_iff]
  · intro dz dp
    show (∃ L, (if dz.length ≠ dp.length then
        (Except.error ("Need one dz for every dp") : Except String FreeInterfaceW)
      else Except.ok ⟨dz, dp⟩) = Except.ok L) ↔ dz.length = dp.length
    rw [exists_ok_ite1]
    exact not_ne_iff
  · intro dz
    show ∃ L, (if dz.length ≠ (List.replicate dz.length (1 : ℚ)).length then
        (Except.error ("Need one dz for every dp") : Except String FreeInterfaceW)
      else Except.ok ⟨dz, List.replicate dz.length (1 : ℚ)⟩) = Except.ok L
    simp
  · intro dp
    show (∃ L, (if dp.length = 0 then
        (Except.error ("ZeroDivisionError: float division by zero") :
          Except String FreeInterfaceW)
      else if (List.replicate dp.length ((10 : ℚ) / (dp.length : ℚ))).length
          ≠ dp.length then Except.error ("Need one dz for every dp")
      else Except.ok ⟨List.replicate dp.length ((10 : ℚ) / (dp.length : ℚ)), dp⟩)
        = Except.ok L) ↔ dp ≠ []
    rw [exists_ok_ite2]
    simp [List.length_eq_zero]
  · exact ⟨⟨List.replicate 5 ((10 : ℚ) / (5 : ℚ)), List.replicate 5 (1 : ℚ)⟩, rfl⟩
  · intro dz dp
    show (∃ L, (if dz.length ≠ dp.length then
        (Except.error ("Need one dz for every dp") : Except String FreeInterfaceW)
      else Except.ok ⟨dz, dp⟩) = Except.ok L) ↔ dz.length = dp.length
    rw [exists_ok_ite1]
    exact not_ne_iff
  · intro dz
    show ∃ L, (if dz.length ≠ (List.replicate dz.length (1 : ℚ)).length then
        (Except.error ("Need one dz for every dp") : Except String FreeInterfaceW)
      else Except.ok ⟨dz, List.replicate dz.length (1 : ℚ)⟩) = Except.ok L
    simp
  · intro dp
    show ∃ L, (if (List.replicate dp.length (1 : ℚ)).length ≠ dp.length then
        (Except.error ("Need one dz for every dp") : Except String FreeInterfaceW)
      else Except.ok ⟨List.replicate dp.length (1 : ℚ), dp⟩) = Except.ok L
    simp
  · exact ⟨⟨List.replicate 5 (1 : ℚ), List.replicate 5 (1 : ℚ)⟩, rfl⟩

/-! ### List index infrastructure -/

lemma getD_set_self {l : List ℚ} {i : ℕ} {v : ℚ} (h : i < l.length) :
    (l.set i v).getD i 0 = v := by
  simp [List.getD_eq_getElem?_getD, List.getElem?_set_eq h]

lemma getD_set_ne {l : List ℚ} {i j : ℕ} {v : ℚ} (h : i ≠ j) :
    (l.set i v).getD j 0 = l.getD j 0 := by
  simp [List.getD_eq_getElem?_getD, List.getElem?_set_ne h]

lemma getD_append_left {l r : List ℚ} {n : ℕ} (h : n < l.length) :
    (l ++ r).getD n 0 = l.getD n 0 := by
  simp [List.getD_eq_getElem?_getD, List.getElem?_append, h]

lemma getD_append_right {l r : List ℚ} {n : ℕ} (h : l.length ≤ n) :
    (l ++ r).getD n 0 = r.getD (n - l.length) 0 := by
  simp [List.getD_eq_getElem?_getD, List.getElem?_append_right h]

lemma getD_replicate {k n : ℕ} {a : ℚ} (h : n < k) :
    (List.replicate k a).getD n 0 = a := by
  simp [List.getD_eq_getElem?_getD, List.getElem?_replicate, h]

lemma getD_replicate_zero (k n : ℕ) :
    (List.replicate k (0 : ℚ)).getD n 0 = 0 := by
  rw [List.getD_eq_getElem?_getD, List.getElem?_replicate]
  split <;> rfl

lemma getD_of_le {l : List ℚ} {n : ℕ} (h : l.length ≤ n) : l.getD n 0 = 0 := by
  simp [List.getD_eq_getElem?_getD, List.getElem?_eq_none h]

lemma tail_getD (l : List ℚ) (n : ℕ) : l.tail.getD n 0 = l.getD (n + 1) 0 := by
  cases l <;> simp

lemma dropLast_getD : ∀ (l : List ℚ) (n : ℕ), n + 1 < l.length →
    l.dropLast.getD n 0 = l.getD n 0
  | [], n, h => by simp at h
  | [a], n, h => by simp at h
  | a :: b :: t, 0, h => by simp
  | a :: b :: t, n + 1, h => by
    have ih := dropLast_getD (b :: t) n (by simpa using h)
    simpa using ih

lemma zipWith_getD {f : ℚ → ℚ → ℚ} : ∀ {l r : List ℚ} {n : ℕ},
    n < l.length → n < r.length →
    (List.zipWith f l r).getD n 0 = f (l.getD n 0) (r.getD n 0)
  | [], _, n, h, _ => by simp at h
  | _ :: _, [], n, _, h => by simp at h
  | a :: l, b :: r, 0, _, _ => rfl
  | a :: l, b :: r, n + 1, h1, h2 => by
    have ih := zipWith_getD (f := f) (l := l) (r := r) (n := n)
      (by simpa using h1) (by simpa using h2)
    simpa using ih

lemma set_zero_getD {l : List ℚ} {i : ℕ} (h : l.getD i 0 = 0) :
    l.set i (0 : ℚ) = l := by
  by_cases hi : i < l.length
  · apply List.ext_getElem?
    intro j
    by_cases hij : i = j
    · subst hij
      rw [List.getElem?_set_eq hi, List.getElem?_eq_getElem hi]
      have h2 : l[i] = 0 := by
        rw [List.getD_eq_getElem?_getD, List.getElem?_eq_getElem hi] at h
        simpa using h
      rw [h2]
    · exact List.getElem?_set_ne hij
  · exact List.set_eq_of_length_le (le_of_not_lt hi)

/-! ### Lengths of the derived arrays -/

lemma extendKnots_length (x : List ℚ) : (extendKnots x).length = x.length + 2 := by
  simp [extendKnots]

lemma extendVals_length (y : List ℚ) : (extendVals y).length = y.length + 2 := by
  simp [extendVals]

lemma diffL_length (l : List ℚ) : (diffL l).length = l.length - 1 := by
  simp [diffL]

lemma cumsum0_length (l : List ℚ) : (cumsum0 l).length = l.length + 1 := by
  simp [cumsum0, List.length_scanl]

/-! ### getD on the extended arrays -/

lemma extend_interior (x : List ℚ) : (extendKnots x).tail.dropLast = x := by
  simp [extendKnots, List.dropLast_concat]

lemma extendKnots_getD_zero (x : List ℚ) :
    (extendKnots x).getD 0 0 = x.headD 0 - 1 := rfl

lemma extendKnots_getD_succ {x : List ℚ} {j : ℕ} (h : j < x.length) :
    (extendKnots x).getD (j + 1) 0 = x.getD j 0 := by
  simp only [extendKnots, List.getD_cons_succ]
  exact getD_append_left h

lemma extendKnots_getD_last (x : List ℚ) :
    (extendKnots x).getD (x.length + 1) 0 = x.getLastD 0 + 1 := by
  simp only [extendKnots, List.getD_cons_succ]
  rw [getD_append_right (le_refl _)]
  simp

lemma extendVals_getD_zero (y : List ℚ) :
    (extendVals y).getD 0 0 = y.headD 0 := rfl

lemma extendVals_getD_succ {y : List ℚ} {j : ℕ} (h : j < y.length) :
    (extendVals y).getD (j + 1) 0 = y.getD j 0 := by
  simp only [extendVals, List.getD_cons_succ]
  exact getD_append_left h

lemma extendVals_getD_last (y : List ℚ) :
    (extendVals y).getD (y.length + 1) 0 = y.getLastD 0 := by
  simp only [extendVals, List.getD_cons_succ]
  rw [getD_append_right (le_refl _)]
  simp

lemma getLastD_eq_getD : ∀ (l : List ℚ), l ≠ [] →
    l.getLastD 0 = l.getD (l.length - 1) 0
  | [], h => absurd rfl h
  | [a], _ => rfl
  | a :: b :: t, _ => by
    have ih := getLastD_eq_getD (b :: t) (by simp)
    simpa using ih

/-! ### Sortedness and searchsorted -/

lemma getD_mono_of_steps {x : List ℚ}
    (hs : ∀ j, j + 1 < x.length → x.getD j 0 ≤ x.getD (j + 1) 0) :
    ∀ i j, i ≤ j → j < x.length → x.getD i 0 ≤ x.getD j 0 := by
  intro i j hij hj
  induction j with
  | zero => cases Nat.le_zero.1 hij; exact le_refl _
  | succ k ih =>
    rcases Nat.lt_or_ge i (k + 1) with hlt | hge
    · exact le_trans (ih (Nat.lt_succ_iff.1 hlt) (by omega)) (hs k hj)
    · cases Nat.le_antisymm hij hge
      exact le_refl _

lemma getD_strict_of_gaps {x : List ℚ}
    (hs : ∀ j, j + 1 < x.length → x.getD j 0 < x.getD (j + 1) 0) :
    ∀ i j, i < j → j < x.length → x.getD i 0 < x.getD j 0 := by
  intro i j hij hj
  induction j with
  | zero => omega
  | succ k ih =>
    rcases Nat.lt_or_ge i k with hlt | hge
    · exact lt_trans (ih hlt (by omega)) (hs k hj)
    · have : i = k := by omega
      cases this
      exact hs i hj

lemma getD_eq_getElem_of_lt {l : List ℚ} {n : ℕ} (h : n < l.length) :
    l.getD n 0 = l[n] := by
  rw [List.getD_eq_getElem?_getD, List.getElem?_eq_getElem h]
  rfl

lemma pairwise_le_of_steps {x : List ℚ}
    (hs : ∀ j, j + 1 < x.length → x.getD j 0 ≤ x.getD (j + 1) 0) :
    x.Pairwise (fun a b => a ≤ b) := by
  rw [List.pairwise_iff_getElem]
  intro i j hi hj hij
  have h := getD_mono_of_steps hs i j (le_of_lt hij) hj
  rwa [getD_eq_getElem_of_lt hi, getD_eq_getElem_of_lt hj] at h

lemma countP_lt_lower (t : ℚ) : ∀ (l : List ℚ),
    l.Pairwise (fun a b => a ≤ b) →
    ∀ j, j < l.countP (fun a => decide (a < t)) → l.getD j 0 < t := by
  intro l
  induction l with
  | nil => intro _ j h; simp [List.countP_nil] at h
  | cons a l ih =>
    intro hp j hj
    have hpa := (List.pairwise_cons.1 hp).1
    have hpl := (List.pairwise_cons.1 hp).2
    rw [List.countP_cons] at hj
    by_cases ha : a < t
    · simp only [ha, decide_True, if_true] at hj
      cases j with
      | zero => exact ha
      | succ k =>
        simp only [List.getD_cons_succ]
        exact ih hpl k (by omega)
    · have hz : l.countP (fun a => decide (a < t)) = 0 := by
        apply List.countP_eq_zero.2
        intro b hb
        simp only [decide_eq_true_eq]
        intro hbt
        exact ha (lt_of_le_of_lt (hpa b hb) hbt)
      simp only [ha, hz, decide_False, if_false] at hj
      simp at hj

lemma countP_lt_upper (t : ℚ) : ∀ (l : List ℚ),
    l.Pairwise (fun a b => a ≤ b) →
    ∀ j, l.countP (fun a => decide (a < t)) ≤ j → j < l.length →
    t ≤ l.getD j 0 := by
  intro l
  induction l with
  | nil => intro _ j _ h; simp at h
  | cons a l ih =>
    intro hp j hj hjlen
    have hpa := (List.pairwise_cons.1 hp).1
    have hpl := (List.pairwise_cons.1 hp).2
    rw [List.countP_cons] at hj
    by_cases ha : a < t
    · simp only [ha, decide_True, if_true] at hj
      cases j with
      | zero => omega
      | succ k =>
        simp only [List.getD_cons_succ]
        exact ih hpl k (by omega) (by simpa using hjlen)
    · have hz : l.countP (fun a => decide (a < t)) = 0 := by
        apply List.countP_eq_zero.2
        intro b hb
        simp only [decide_eq_true_eq]
        intro hbt
        exact ha (lt_of_le_of_lt (hpa b hb) hbt)
      cases j with
      | zero => exact le_of_not_lt ha
      | succ k =>
        simp only [List.getD_cons_succ]
        exact ih hpl k (by omega) (by simpa using hjlen)

lemma searchsorted_le_length (l : List ℚ) (t : ℚ) :
    searchsorted l t ≤ l.length := List.countP_le_length _

lemma searchsorted_eq {x : List ℚ} {t : ℚ} {i : ℕ}
    (hp : x.Pairwise (fun a b => a ≤ b))
    (hi : i + 1 < x.length) (h1 : x.getD i 0 < t) (h2 : t ≤ x.getD (i + 1) 0) :
    searchsorted x t = i + 1 := by
  have hup : ¬ (searchsorted x t ≤ i) := by
    intro hle
    exact absurd h1 (not_lt.2 (countP_lt_upper t x hp i hle (by omega)))
  have hlo : ¬ (i + 1 < searchsorted x t) := by
    intro hlt
    exact absurd h2 (not_le.2 (countP_lt_lower t x hp (i + 1) hlt))
  omega

lemma searchsorted_eq_length {x : List ℚ} {t : ℚ} (h : ∀ a ∈ x, a < t) :
    searchsorted x t = x.length := by
  apply List.countP_eq_length.2
  intro a ha
  simpa using h a ha

/-! ### The cubic factor bounds (Fritsch-Carlson style) -/

lemma cubic_factor_lower {a b u : ℚ} (ha : 0 ≤ a) (hb3 : b ≤ 3)
    (hu0 : 0 ≤ u) (hu1 : u ≤ 1) :
    0 ≤ (a + b - 2) * u ^ 3 + (3 - 2 * a - b) * u ^ 2 + a * u := by
  have key : (a + b - 2) * u ^ 3 + (3 - 2 * a - b) * u ^ 2 + a * u
      = u * (a * (1 - u) ^ 2 + u ^ 2 + (3 - b) * (u * (1 - u))) := by ring
  rw [key]
  apply mul_nonneg hu0
  have h1 : 0 ≤ a * (1 - u) ^ 2 := mul_nonneg ha (sq_nonneg _)
  have h2 : 0 ≤ (3 - b) * (u * (1 - u)) :=
    mul_nonneg (by linarith) (mul_nonneg hu0 (by linarith))
  nlinarith [sq_nonneg u]

lemma cubic_factor_upper {a b u : ℚ} (ha3 : a ≤ 3) (hb : 0 ≤ b)
    (hu0 : 0 ≤ u) (hu1 : u ≤ 1) :
    (a + b - 2) * u ^ 3 + (3 - 2 * a - b) * u ^ 2 + a * u ≤ 1 := by
  have key : 1 - ((a + b - 2) * u ^ 3 + (3 - 2 * a - b) * u ^ 2 + a * u)
      = (1 - u) * (b * u ^ 2 + (1 - u) ^ 2 + (3 - a) * (u * (1 - u))) := by ring
  have h1 : 0 ≤ b * u ^ 2 := mul_nonneg hb (sq_nonneg _)
  have h2 : 0 ≤ (3 - a) * (u * (1 - u)) :=
    mul_nonneg (by linarith) (mul_nonneg hu0 (by linarith))
  nlinarith [sq_nonneg (1 - u)]

/-! ### Structure of the fitted tangent array -/

lemma diffL_getD {l : List ℚ} {j : ℕ} (h : j + 1 < l.length) :
    (diffL l).getD j 0 = l.getD (j + 1) 0 - l.getD j 0 := by
  have h1 : j < l.tail.length := by simp [List.length_tail]; omega
  have h2 : j < l.length := by omega
  rw [diffL, zipWith_getD h1 h2, tail_getD]

lemma msDelta_length {x y : List ℚ} (hxy : x.length = y.length) :
    (msDelta x y).length = y.length + 1 := by
  simp [msDelta, List.length_zipWith, diffL_length, extendKnots_length,
    extendVals_length, hxy]

lemma msM0_length {x y : List ℚ} (hxy : x.length = y.length) :
    (msM0 x y).length = y.length + 2 := by
  simp [msM0, List.length_zipWith, List.length_tail, msDelta_length hxy]

lemma fcStep_length (rsqrt : ℚ → ℚ) (dy delta alpha beta d m : List ℚ) (i : ℕ) :
    (fcStep rsqrt dy delta alpha beta d m i).length = m.length := by
  rw [fcStep]
  split_ifs <;> simp

lemma foldl_fcStep_length (rsqrt : ℚ → ℚ) (dy delta alpha beta d : List ℚ) :
    ∀ (is : List ℕ) (m : List ℚ),
    (is.foldl (fcStep rsqrt dy delta alpha beta d) m).length = m.length := by
  intro is
  induction is with
  | nil => intro m; rfl
  | cons i is ih =>
    intro m
    rw [List.foldl_cons, ih, fcStep_length]

lemma extendVals_dy_last {y : List ℚ} (hn : 1 ≤ y.length) :
    (diffL (extendVals y)).getD y.length 0 = 0 := by
  have hne : y ≠ [] := by
    intro h
    rw [h] at hn
    simp at hn
  rw [diffL_getD (by rw [extendVals_length]; omega), extendVals_getD_last]
  obtain ⟨k, hk⟩ : ∃ k, y.length = k + 1 := ⟨y.length - 1, by omega⟩
  rw [hk, extendVals_getD_succ (by omega), getLastD_eq_getD y hne, hk]
  simp

lemma fitTangents_last_two (rsqrt : ℚ → ℚ) (x y : List ℚ)
    (hxy : x.length = y.length) (hn : 2 ≤ y.length) :
    (fitTangents rsqrt x y).getD y.length 0 = 0 ∧
    (fitTangents rsqrt x y).getD (y.length + 1) 0 = 0 := by
  have hM0 : (msM0 x y).length = y.length + 2 := msM0_length hxy
  have hlen1 : (msM0 x y).length - 1 = y.length + 1 := by omega
  rw [fitTangents, hlen1, List.range_succ, List.foldl_append, List.foldl_cons,
    List.foldl_nil]
  have hMlen : ((List.range y.length).foldl
      (fcStep rsqrt (diffL (extendVals y)) (msDelta x y) (msAlpha x y)
        (msBeta x y) (msD x y)) (msM0 x y)).length = y.length + 2 := by
    rw [foldl_fcStep_length, hM0]
  set M := (List.range y.length).foldl
      (fcStep rsqrt (diffL (extendVals y)) (msDelta x y) (msAlpha x y)
        (msBeta x y) (msD x y)) (msM0 x y) with hMdef
  rw [fcStep, if_pos (Or.inl (extendVals_dy_last (by omega)))]
  constructor
  · rw [getD_set_ne (by omega), getD_set_self (by rw [hMlen]; omega)]
  · rw [getD_set_self (by rw [List.length_set, hMlen]; omega)]

/-- C10: for every knot sequence of length at least 2, the tangent fitted by
`monospline` at the last original knot (the entry just before the synthetic
right boundary knot) is exactly 0: the final loop iteration runs over the
flat synthetic end segment (whose `dy` is 0) and zeroes it, and no later
iteration exists to overwrite it. -/
theorem fitTangents_last_knot_zero (rsqrt : ℚ → ℚ) (x y : List ℚ)
    (hxy : x.length = y.length) (hn : 2 ≤ y.length) :
    (fitTangents rsqrt x y).getD y.length 0 = 0 :=
  (fitTangents_last_two rsqrt x y hxy hn).1

/-- C10 witness: the last original knot's tangent for a concrete two-knot
input. -/
theorem fitTangents_last_knot_zero_witness :
    (fitTangents sqrtVals [0, 1] [0, 1]).getD 2 0 = 0 :=
  fitTangents_last_knot_zero sqrtVals [0, 1] [0, 1] rfl (by norm_num)

/-! ### Constant knot values (C5) -/

lemma diffL_cons₂ (a b : ℚ) (l : List ℚ) :
    diffL (a :: b :: l) = (b - a) :: diffL (b :: l) := rfl

lemma diffL_replicate : ∀ (k : ℕ) (c : ℚ),
    diffL (List.replicate k c) = List.replicate (k - 1) 0
  | 0, c => rfl
  | 1, c => rfl
  | (k + 2), c => by
    rw [List.replicate_succ, List.replicate_succ, diffL_cons₂, sub_self,
      ← List.replicate_succ, diffL_replicate (k + 1) c]
    simp [List.replicate_succ]

lemma zipWith_zero_div : ∀ (l : List ℚ) (n : ℕ),
    List.zipWith (fun a b => a / b) (List.replicate n (0 : ℚ)) l
      = List.replicate (min n l.length) 0
  | [], n => by simp
  | a :: l, 0 => by simp
  | a :: l, n + 1 => by
    rw [List.replicate_succ, List.zipWith_cons_cons, zero_div,
      zipWith_zero_div l n]
    have h : min (n + 1) (a :: l).length = min n l.length + 1 := by
      simp only [List.length_cons]
      omega
    rw [h, List.replicate_succ]

lemma zipWith_replicate₂ (f : ℚ → ℚ → ℚ) (a b : ℚ) : ∀ (n m : ℕ),
    List.zipWith f (List.replicate n a) (List.replicate m b)
      = List.replicate (min n m) (f a b)
  | 0, m => by simp
  | n + 1, 0 => by simp
  | n + 1, m + 1 => by
    rw [List.replicate_succ, List.replicate_succ, List.zipWith_cons_cons,
      zipWith_replicate₂ f a b n m]
    have h : min (n + 1) (m + 1) = min n m + 1 := by omega
    rw [h, List.replicate_succ]

lemma foldl_fixed {f : List ℚ → ℕ → List ℚ} {m : List ℚ}
    (h : ∀ i, f m i = m) : ∀ is : List ℕ, is.foldl f m = m := by
  intro is
  induction is with
  | nil => rfl
  | cons i is ih => rw [List.foldl_cons, h i, ih]

lemma getLastD_replicate (c : ℚ) : ∀ (n : ℕ),
    (List.replicate (n + 1) c).getLastD 0 = c
  | 0 => rfl
  | n + 1 => by
    rw [List.replicate_succ]
    rw [List.getLastD_cons]
    exact getLastD_replicate c n

lemma extendVals_replicate {n : ℕ} (c : ℚ) (hn : 1 ≤ n) :
    extendVals (List.replicate n c) = List.replicate (n + 2) c := by
  obtain ⟨k, rfl⟩ : ∃ k, n = k + 1 := ⟨n - 1, by omega⟩
  rw [extendVals, getLastD_replicate]
  rw [show (List.replicate (k + 1) c).headD 0 = c by rw [List.replicate_succ]; rfl]
  rw [← List.replicate_succ' (k + 1) c, ← List.replicate_succ]

/-- C5: a constant value sequence yields an identically zero fitted tangent
array and a constant interpolant: all secants vanish, every limiter
iteration takes its zero branch, and the Hermite cubic collapses to the
constant term.  All operations are total; no fault occurs. -/
theorem monospline_constant_profile (rsqrt : ℚ → ℚ) (x : List ℚ) (c : ℚ)
    (hn : 2 ≤ x.length)
    (hs : ∀ j, j + 1 < x.length → x.getD j 0 < x.getD (j + 1) 0) :
    fitTangents rsqrt x (List.replicate x.length c)
      = List.replicate (x.length + 2) 0 ∧
    ∀ t, monospline rsqrt x (List.replicate x.length c) t = c := by
  have hlenr : (List.replicate x.length c).length = x.length := by simp
  have hye : extendVals (List.replicate x.length c)
      = List.replicate (x.length + 2) c := extendVals_replicate c (by omega)
  have hdy : diffL (extendVals (List.replicate x.length c))
      = List.replicate (x.length + 1) 0 := by
    rw [hye, diffL_replicate]
    rfl
  have hdxlen : (diffL (extendKnots x)).length = x.length + 1 := by
    rw [diffL_length, extendKnots_length]
    omega
  have hdelta : msDelta x (List.replicate x.length c)
      = List.replicate (x.length + 1) 0 := by
    rw [msDelta, hdy, zipWith_zero_div, hdxlen, min_self]
  have hm0 : msM0 x (List.replicate x.length c)
      = List.replicate (x.length + 2) 0 := by
    rw [msM0, hdelta, List.tail_replicate, zipWith_replicate₂]
    have : min (x.length + 1 - 1) (x.length + 1) = x.length := by omega
    rw [this]
    norm_num
    rw [← List.replicate_succ' x.length (0 : ℚ), ← List.replicate_succ]
  have hfit : fitTangents rsqrt x (List.replicate x.length c)
      = List.replicate (x.length + 2) 0 := by
    rw [fitTangents, hm0, hdy]
    apply foldl_fixed
    intro i
    rw [fcStep, if_pos (Or.inl (getD_replicate_zero _ _)),
      set_zero_getD (getD_replicate_zero _ _),
      set_zero_getD (getD_replicate_zero _ _)]
  refine ⟨hfit, ?_⟩
  intro t
  have hidx : searchsorted (extendKnots x).tail.dropLast t ≤ x.length := by
    rw [extend_interior]
    exact searchsorted_le_length x t
  simp only [monospline, hermite]
  rw [hfit, hye]
  simp only [getD_replicate_zero]
  rw [getD_replicate (by omega), getD_replicate (by omega)]
  simp

/-- C5 witness: constant value 7 on three knots, query between knots. -/
theorem monospline_constant_profile_witness :
    fitTangents sqrtVals [0, 1, 2] (List.replicate 3 7)
      = List.replicate 5 0 ∧
    monospline sqrtVals [0, 1, 2] (List.replicate 3 7) (3/2) = 7 := by
  have h := monospline_constant_profile sqrtVals [0, 1, 2] 7 (by norm_num)
    (by
      intro j hj
      simp only [List.length_cons, List.length_nil] at hj
      have hj2 : j = 0 ∨ j = 1 := by omega
      rcases hj2 with rfl | rfl <;> norm_num [List.getD])
  exact ⟨h.1, h.2 (3/2)⟩

/-! ### Flat extrapolation on the right (C4 amended) -/

/-- C4 (amended): evaluation is total for every query position, and beyond
the last original knot the value is flat, equal to the last knot value:
the query falls in the synthetic right segment of width 1, whose secant is
zero and whose end tangents are forced to zero by the final limiter
iteration. -/
theorem monospline_flat_right (rsqrt : ℚ → ℚ) (x y : List ℚ)
    (hxy : x.length = y.length) (hn : 2 ≤ x.length)
    (hs : ∀ j, j + 1 < x.length → x.getD j 0 ≤ x.getD (j + 1) 0)
    (t : ℚ) (ht : x.getLastD 0 < t) :
    monospline rsqrt x y t = y.getLastD 0 := by
  have hne : x ≠ [] := by
    intro h
    rw [h] at hn
    simp at hn
  have hney : y ≠ [] := by
    intro h
    rw [h] at hxy
    simp only [List.length_nil] at hxy
    omega
  obtain ⟨m, hm⟩ : ∃ m, x.length = m + 1 := ⟨x.length - 1, by omega⟩
  have hmy : y.length = m + 1 := by omega
  have hidx : searchsorted (extendKnots x).tail.dropLast t = x.length := by
    rw [extend_interior]
    apply searchsorted_eq_length
    intro a ha
    obtain ⟨i, hi, rfl⟩ := List.mem_iff_getElem.1 ha
    calc x[i] = x.getD i 0 := (getD_eq_getElem_of_lt hi).symm
    _ ≤ x.getD (x.length - 1) 0 :=
        getD_mono_of_steps hs i (x.length - 1) (by omega) (by omega)
    _ = x.getLastD 0 := (getLastD_eq_getD x hne).symm
    _ < t := ht
  have hX1 : (extendKnots x).getD (x.length + 1) 0 = x.getLastD 0 + 1 :=
    extendKnots_getD_last x
  have hX0 : (extendKnots x).getD x.length 0 = x.getLastD 0 := by
    rw [getLastD_eq_getD x hne, hm]
    exact extendKnots_getD_succ (by omega)
  have hY1 : (extendVals y).getD (x.length + 1) 0 = y.getLastD 0 := by
    rw [hxy]
    exact extendVals_getD_last y
  have hY0 : (extendVals y).getD x.length 0 = y.getLastD 0 := by
    rw [hm, getLastD_eq_getD y hney, hmy]
    exact extendVals_getD_succ (by omega)
  have hMa : (fitTangents rsqrt x y).getD x.length 0 = 0 := by
    rw [hxy]
    exact (fitTangents_last_two rsqrt x y hxy (by omega)).1
  have hMb : (fitTangents rsqrt x y).getD (x.length + 1) 0 = 0 := by
    rw [hxy]
    exact (fitTangents_last_two rsqrt x y hxy (by omega)).2
  simp only [monospline, hermite]
  rw [hidx, hX1, hX0, hY1, hY0, hMa, hMb]
  have hone : x.getLastD 0 + 1 - x.getLastD 0 = (1 : ℚ) := by ring
  rw [hone]
  norm_num

/-- C4 witness: two knots, query beyond the last knot. -/
theorem monospline_flat_right_witness :
    monospline sqrtVals [0, 2] [3, 5] 7 = ([3, 5] : List ℚ).getLastD 0 :=
  monospline_flat_right sqrtVals [0, 2] [3, 5] rfl (by norm_num)
    (by
      intro j hj
      simp only [List.length_cons, List.length_nil] at hj
      have hj2 : j = 0 := by omega
      subst hj2
      norm_num [List.getD])
    7 (by with_unfolding_all decide)

/-! ### Interpolation at the knots (C3 amended) -/

lemma headD_eq_getD (l : List ℚ) : l.headD 0 = l.getD 0 0 := by
  cases l <;> rfl

lemma hermite_eval_right (T A Y0 Y1 M0 M1 : ℚ) (h : T - A ≠ 0) :
    (((M0 + M1 - 2 * ((Y1 - Y0) / (T - A))) / (T - A) ^ 2 * (T - A) +
        (3 * ((Y1 - Y0) / (T - A)) - 2 * M0 - M1) / (T - A)) * (T - A) + M0) *
      (T - A) + Y0 = Y1 := by
  field_simp
  ring

/-- C3 (amended): when consecutive knot gaps exceed the 1e-10 segment-width
floor of hermite, evaluating the monospline at an original knot position
returns exactly the corresponding knot value: the query lands at the right
end of its segment, the floored width equals the true width, and the cubic
telescopes to the right endpoint value. -/
theorem monospline_interpolates (rsqrt : ℚ → ℚ) (x y : List ℚ)
    (hxy : x.length = y.length) (hn : 2 ≤ x.length)
    (hgap : ∀ j, j + 1 < x.length →
      1 / 10 ^ 10 < x.getD (j + 1) 0 - x.getD j 0)
    (i : ℕ) (hi : i < x.length) :
    monospline rsqrt x y (x.getD i 0) = y.getD i 0 := by
  have hs : ∀ j, j + 1 < x.length → x.getD j 0 < x.getD (j + 1) 0 := by
    intro j hj
    have h := hgap j hj
    have hpos : (0 : ℚ) < 1 / 10 ^ 10 := by norm_num
    linarith
  have hp : x.Pairwise (fun a b => a ≤ b) :=
    pairwise_le_of_steps (fun j hj => le_of_lt (hs j hj))
  have hidx : searchsorted x (x.getD i 0) = i := by
    cases i with
    | zero =>
      rw [searchsorted]
      rw [List.countP_eq_zero]
      intro a ha
      obtain ⟨j, hj, rfl⟩ := List.mem_iff_getElem.1 ha
      simp only [decide_eq_true_eq]
      rw [← getD_eq_getElem_of_lt hj]
      exact not_lt.2
        (getD_mono_of_steps (fun j hj => le_of_lt (hs j hj)) 0 j (Nat.zero_le j) hj)
    | succ k =>
      exact searchsorted_eq hp hi (hs k hi) (le_refl _)
  have hidxE : searchsorted (extendKnots x).tail.dropLast (x.getD i 0) = i := by
    rw [extend_interior]
    exact hidx
  have hX1 : (extendKnots x).getD (i + 1) 0 = x.getD i 0 :=
    extendKnots_getD_succ hi
  have hY1 : (extendVals y).getD (i + 1) 0 = y.getD i 0 :=
    extendVals_getD_succ (by omega)
  have hh0 : 1 / 10 ^ 10 < x.getD i 0 - (extendKnots x).getD i 0 := by
    cases i with
    | zero =>
      rw [extendKnots_getD_zero, headD_eq_getD]
      have h1 : x.getD 0 0 - (x.getD 0 0 - 1) = 1 := by ring
      rw [h1]
      norm_num
    | succ k =>
      rw [extendKnots_getD_succ (by omega : k < x.length)]
      exact hgap k hi
  simp only [monospline, hermite]
  rw [hidxE, hX1, hY1]
  rw [if_neg (not_le.2 hh0)]
  have hne0 : x.getD i 0 - (extendKnots x).getD i 0 ≠ 0 :=
    ne_of_gt (lt_trans (by norm_num) hh0)
  exact hermite_eval_right (x.getD i 0) ((extendKnots x).getD i 0)
    ((extendVals y).getD i 0) (y.getD i 0)
    ((fitTangents rsqrt x y).getD i 0) ((fitTangents rsqrt x y).getD (i + 1) 0)
    hne0

/-- C3 witness: second knot of a two-knot sequence with unit gap. -/
theorem monospline_interpolates_witness :
    monospline sqrtVals [0, 1] [2, 5] (([0, 1] : List ℚ).getD 1 0)
      = ([2, 5] : List ℚ).getD 1 0 :=
  monospline_interpolates sqrtVals [0, 1] [2, 5] rfl (by norm_num)
    (by
      intro j hj
      simp only [List.length_cons, List.length_nil] at hj
      have hj2 : j = 0 := by omega
      subst hj2
      norm_num [List.getD])
    1 (by norm_num)

/-! ### Segment bounds under limited tangents (C2 amended) -/

lemma interp_bounds {Y0 Y1 g : ℚ} (hg0 : 0 ≤ g) (hg1 : g ≤ 1) :
    min Y0 Y1 ≤ Y0 + (Y1 - Y0) * g ∧ Y0 + (Y1 - Y0) * g ≤ max Y0 Y1 := by
  rcases le_total Y0 Y1 with hY | hY
  · rw [min_eq_left hY, max_eq_right hY]
    constructor
    · nlinarith [mul_nonneg (sub_nonneg.2 hY) hg0]
    · nlinarith [mul_nonneg (sub_nonneg.2 hY) (sub_nonneg.2 hg1)]
  · rw [min_eq_right hY, max_eq_left hY]
    constructor
    · nlinarith [mul_nonneg (sub_nonneg.2 hY) (sub_nonneg.2 hg1)]
    · nlinarith [mul_nonneg (sub_nonneg.2 hY) hg0]

lemma hermite_cubic_bounds (X0 X1 Y0 Y1 a b t : ℚ)
    (htl : X0 < t) (htr : t < X1)
    (ha0 : 0 ≤ a) (hb0 : 0 ≤ b) (hdisk : a ^ 2 + b ^ 2 ≤ 9) :
    min Y0 Y1 ≤
      (((a * ((Y1 - Y0) / (X1 - X0)) + b * ((Y1 - Y0) / (X1 - X0)) -
            2 * ((Y1 - Y0) / (X1 - X0))) / (X1 - X0) ^ 2 * (t - X0) +
          (3 * ((Y1 - Y0) / (X1 - X0)) - 2 * (a * ((Y1 - Y0) / (X1 - X0))) -
            b * ((Y1 - Y0) / (X1 - X0))) / (X1 - X0)) * (t - X0) +
        a * ((Y1 - Y0) / (X1 - X0))) * (t - X0) + Y0 ∧
    (((a * ((Y1 - Y0) / (X1 - X0)) + b * ((Y1 - Y0) / (X1 - X0)) -
          2 * ((Y1 - Y0) / (X1 - X0))) / (X1 - X0) ^ 2 * (t - X0) +
        (3 * ((Y1 - Y0) / (X1 - X0)) - 2 * (a * ((Y1 - Y0) / (X1 - X0))) -
          b * ((Y1 - Y0) / (X1 - X0))) / (X1 - X0)) * (t - X0) +
      a * ((Y1 - Y0) / (X1 - X0))) * (t - X0) + Y0 ≤ max Y0 Y1 := by
  have hD : (0 : ℚ) < X1 - X0 := by linarith
  have hDne : X1 - X0 ≠ 0 := ne_of_gt hD
  have ha3 : a ≤ 3 := by nlinarith [sq_nonneg b, sq_nonneg (a - 3)]
  have hb3 : b ≤ 3 := by nlinarith [sq_nonneg a, sq_nonneg (b - 3)]
  have hu0 : 0 ≤ (t - X0) / (X1 - X0) := div_nonneg (by linarith) (le_of_lt hD)
  have hu1 : (t - X0) / (X1 - X0) ≤ 1 := by
    rw [div_le_one hD]
    linarith
  have key :
      (((a * ((Y1 - Y0) / (X1 - X0)) + b * ((Y1 - Y0) / (X1 - X0)) -
            2 * ((Y1 - Y0) / (X1 - X0))) / (X1 - X0) ^ 2 * (t - X0) +
          (3 * ((Y1 - Y0) / (X1 - X0)) - 2 * (a * ((Y1 - Y0) / (X1 - X0))) -
            b * ((Y1 - Y0) / (X1 - X0))) / (X1 - X0)) * (t - X0) +
        a * ((Y1 - Y0) / (X1 - X0))) * (t - X0) + Y0
        = Y0 + (Y1 - Y0) *
          ((a + b - 2) * ((t - X0) / (X1 - X0)) ^ 3 +
            (3 - 2 * a - b) * ((t - X0) / (X1 - X0)) ^ 2 +
            a * ((t - X0) / (X1 - X0))) := by
    field_simp
    ring
  rw [key]
  exact interp_bounds (cubic_factor_lower ha0 hb3 hu0 hu1)
    (cubic_factor_upper ha3 hb0 hu0 hu1)

/-- C2 (amended): for a query strictly inside an original segment whose knot
gaps exceed the 1e-10 floor, the monospline value lies between the segment's
two knot values whenever the two fitted tangents at the segment ends are
nonnegative multiples `a`, `b` of the segment secant with `a^2 + b^2 ≤ 9`
(the Fritsch-Carlson monotonicity disk the limiter aims for but does not
always establish). -/
theorem monospline_segment_bounds (rsqrt : ℚ → ℚ) (x y : List ℚ)
    (a b t : ℚ) (i : ℕ)
    (hxy : x.length = y.length) (hi : i + 1 < x.length)
    (hgap : ∀ j, j + 1 < x.length →
      1 / 10 ^ 10 < x.getD (j + 1) 0 - x.getD j 0)
    (ha : (fitTangents rsqrt x y).getD (i + 1) 0
      = a * ((y.getD (i + 1) 0 - y.getD i 0) / (x.getD (i + 1) 0 - x.getD i 0)))
    (hb : (fitTangents rsqrt x y).getD (i + 2) 0
      = b * ((y.getD (i + 1) 0 - y.getD i 0) / (x.getD (i + 1) 0 - x.getD i 0)))
    (ha0 : 0 ≤ a) (hb0 : 0 ≤ b) (hdisk : a ^ 2 + b ^ 2 ≤ 9)
    (htl : x.getD i 0 < t) (htr : t < x.getD (i + 1) 0) :
    min (y.getD i 0) (y.getD (i + 1) 0) ≤ monospline rsqrt x y t ∧
    monospline rsqrt x y t ≤ max (y.getD i 0) (y.getD (i + 1) 0) := by
  have hs : ∀ j, j + 1 < x.length → x.getD j 0 < x.getD (j + 1) 0 := by
    intro j hj
    have h := hgap j hj
    have hpos : (0 : ℚ) < 1 / 10 ^ 10 := by norm_num
    linarith
  have hp : x.Pairwise (fun a b => a ≤ b) :=
    pairwise_le_of_steps (fun j hj => le_of_lt (hs j hj))
  have hidx : searchsorted x t = i + 1 :=
    searchsorted_eq hp hi htl (le_of_lt htr)
  have hidxE : searchsorted (extendKnots x).tail.dropLast t = i + 1 := by
    rw [extend_interior]
    exact hidx
  have hX1 : (extendKnots x).getD (i + 1 + 1) 0 = x.getD (i + 1) 0 :=
    extendKnots_getD_succ hi
  have hX0 : (extendKnots x).getD (i + 1) 0 = x.getD i 0 :=
    extendKnots_getD_succ (show i < x.length by omega)
  have hY1 : (extendVals y).getD (i + 1 + 1) 0 = y.getD (i + 1) 0 :=
    extendVals_getD_succ (show i + 1 < y.length by omega)
  have hY0 : (extendVals y).getD (i + 1) 0 = y.getD i 0 :=
    extendVals_getD_succ (show i < y.length by omega)
  have hb2 : (fitTangents rsqrt x y).getD (i + 1 + 1) 0
      = b * ((y.getD (i + 1) 0 - y.getD i 0) /
          (x.getD (i + 1) 0 - x.getD i 0)) := hb
  simp only [monospline, hermite]
  rw [hidxE, hX1, hX0, hY1, hY0, ha, hb2, if_neg (not_le.2 (hgap i hi))]
  exact hermite_cubic_bounds (x.getD i 0) (x.getD (i + 1) 0) (y.getD i 0)
    (y.getD (i + 1) 0) a b t htl htr ha0 hb0 hdisk

/-- C2 witness: unit step data on knots `[0, 1]`; both fitted tangents at
the ends of the first segment are zero, i.e. `0` times the secant. -/
theorem monospline_segment_bounds_witness :
    min (([0, 1] : List ℚ).getD 0 0) (([0, 1] : List ℚ).getD 1 0) ≤
      monospline sqrtVals [0, 1] [0, 1] (1/2) ∧
    monospline sqrtVals [0, 1] [0, 1] (1/2) ≤
      max (([0, 1] : List ℚ).getD 0 0) (([0, 1] : List ℚ).getD 1 0) := by
  have hdy : diffL (extendVals ([0, 1] : List ℚ)) = [0, 1, 0] := by
    norm_num [diffL, extendVals]
  have hde : msDelta [0, 1] [0, 1] = [0, 1, 0] := by
    norm_num [msDelta, diffL, extendKnots, extendVals]
  have hm0 : msM0 [0, 1] [0, 1] = [0, 1/2, 1/2, 0] := by
    simp only [msM0, hde]
    norm_num
  have hal : msAlpha [0, 1] [0, 1] = [0, 1/2, 0] := by
    simp only [msAlpha, hm0, hde]
    norm_num
  have hbe : msBeta [0, 1] [0, 1] = [0, 1/2, 0] := by
    simp only [msBeta, hm0, hde]
    norm_num
  have hdd : msD [0, 1] [0, 1] = [0, 1/2, 0] := by
    simp only [msD, hal, hbe]
    norm_num
  have hft : fitTangents sqrtVals [0, 1] [0, 1] = [0, 0, 0, 0] := by
    simp only [fitTangents, hdy, hde, hm0, hal, hbe, hdd]
    norm_num [show List.range 3 = [0, 1, 2] from rfl, fcStep, sqrtVals]
  exact monospline_segment_bounds sqrtVals [0, 1] [0, 1] 0 0 (1/2) 0 rfl
    (by norm_num)
    (by
      intro j hj
      simp only [List.length_cons, List.length_nil] at hj
      have hj2 : j = 0 := by omega
      subst hj2
      norm_num [List.getD])
    (by rw [hft]; norm_num [List.getD])
    (by rw [hft]; norm_num [List.getD])
    (le_refl 0) (le_refl 0) (by norm_num)
    (by norm_num [List.getD]) (by norm_num [List.getD])

/-! ### All-zero dp: normalisation and profile bounds (C8) -/

lemma getD_set_zero (l : List ℚ) (i : ℕ) : (l.set i 0).getD i 0 = 0 := by
  by_cases h : i < l.length
  · exact getD_set_self h
  · exact getD_of_le (by simpa using not_lt.1 h)

lemma getLastD_append_singleton' (b : ℚ) :
    ∀ (l : List ℚ) (d : ℚ), (l ++ [b]).getLastD d = b
  | [], d => rfl
  | a :: l, d => by
    rw [List.cons_append, List.getLastD_cons]
    exact getLastD_append_singleton' b l a

lemma getLastD_append_singleton (l : List ℚ) (b : ℚ) :
    (l ++ [b]).getLastD 0 = b := getLastD_append_singleton' b l 0

lemma dropLast_replicate_zero (k : ℕ) :
    (List.replicate (k + 1) (0 : ℚ)).dropLast = List.replicate k 0 := by
  rw [List.replicate_succ']
  simp [List.dropLast_concat]

lemma map_div_one : ∀ (l : List ℚ), l.map (fun a => a / 1) = l
  | [] => rfl
  | a :: l => by simp [map_div_one l]

lemma scanl_add_getD_succ : ∀ (l : List ℚ) (a : ℚ) (j : ℕ), j < l.length →
    (l.scanl (fun x y => x + y) a).getD (j + 1) 0
      = (l.scanl (fun x y => x + y) a).getD j 0 + l.getD j 0
  | [], a, j, h => by simp at h
  | b :: l, a, 0, h => by
    cases l <;> simp [List.scanl]
  | b :: l, a, j + 1, h => by
    have ih := scanl_add_getD_succ l (a + b) j (by simpa using h)
    simpa [List.scanl] using ih

lemma scanl_add_replicate_zero : ∀ (k : ℕ) (a : ℚ),
    (List.replicate k (0 : ℚ)).scanl (fun x y => x + y) a
      = List.replicate (k + 1) a
  | 0, a => rfl
  | k + 1, a => by
    rw [List.replicate_succ, List.scanl, add_zero,
      scanl_add_replicate_zero k a]
    simp [List.replicate_succ]

/-- The normalised fraction array for an all-zero `dp`: the cumulative sums
are all zero, the terminal entry is replaced by `1`, and division by the new
terminal entry `1` leaves `k` zeros followed by a final `1`. -/
lemma pArr_zero_dp (L : FreeInterfaceW)
    (hdp : L.dp = List.replicate L.dp.length 0) :
    L.pArr = List.replicate L.dp.length 0 ++ [1] := by
  obtain ⟨k, hk⟩ : ∃ k, L.dp.length = k := ⟨_, rfl⟩
  rw [hk] at hdp ⊢
  simp only [FreeInterfaceW.pArr]
  rw [hdp]
  rw [show cumsum0 (List.replicate k (0 : ℚ)) = List.replicate (k + 1) 0 from
    scanl_add_replicate_zero k 0]
  rw [getLastD_replicate, if_pos rfl, dropLast_replicate_zero,
    getLastD_append_singleton, map_div_one]

lemma zArr_length (L : FreeInterfaceW) : L.zArr.length = L.dz.length + 1 := by
  rw [FreeInterfaceW.zArr, cumsum0_length]

lemma zArr_steps (L : FreeInterfaceW)
    (hdz : ∀ j, j < L.dz.length → 0 ≤ L.dz.getD j 0) :
    ∀ j, j + 1 < L.zArr.length → L.zArr.getD j 0 ≤ L.zArr.getD (j + 1) 0 := by
  intro j hj
  rw [zArr_length] at hj
  have h := scanl_add_getD_succ L.dz 0 j (by omega)
  rw [FreeInterfaceW.zArr, cumsum0]
  rw [h]
  have := hdz j (by omega)
  linarith

lemma hermite_zero_flat (h v A : ℚ) :
    (((0 + 0 - 2 * ((A - A) / h)) / h ^ 2 * v +
        (3 * ((A - A) / h) - 2 * 0 - 0) / h) * v + 0) * v + A = A := by
  simp

lemma hermite_zero_interior (H v Y0 Y1 lo hi : ℚ) (hH : 0 < H)
    (hv0 : 0 ≤ v) (hvH : v ≤ H)
    (h0 : lo ≤ Y0 ∧ Y0 ≤ hi) (h1 : lo ≤ Y1 ∧ Y1 ≤ hi) :
    lo ≤ (((0 + 0 - 2 * ((Y1 - Y0) / H)) / H ^ 2 * v +
        (3 * ((Y1 - Y0) / H) - 2 * 0 - 0) / H) * v + 0) * v + Y0 ∧
    (((0 + 0 - 2 * ((Y1 - Y0) / H)) / H ^ 2 * v +
        (3 * ((Y1 - Y0) / H) - 2 * 0 - 0) / H) * v + 0) * v + Y0 ≤ hi := by
  have hHne : H ≠ 0 := ne_of_gt hH
  have key : (((0 + 0 - 2 * ((Y1 - Y0) / H)) / H ^ 2 * v +
      (3 * ((Y1 - Y0) / H) - 2 * 0 - 0) / H) * v + 0) * v + Y0
      = Y0 + (Y1 - Y0) * (3 * (v / H) ^ 2 - 2 * (v / H) ^ 3) := by
    field_simp
    ring
  rw [key]
  have hu0 : 0 ≤ v / H := div_nonneg hv0 (le_of_lt hH)
  have hu1 : v / H ≤ 1 := (div_le_one hH).2 hvH
  have hg0 : 0 ≤ 3 * (v / H) ^ 2 - 2 * (v / H) ^ 3 := by
    nlinarith [mul_nonneg (mul_self_nonneg (v / H))
      (show (0 : ℚ) ≤ 3 - 2 * (v / H) by linarith)]
  have hg1 : 3 * (v / H) ^ 2 - 2 * (v / H) ^ 3 ≤ 1 := by
    nlinarith [mul_nonneg (mul_self_nonneg (1 - v / H))
      (show (0 : ℚ) ≤ 1 + 2 * (v / H) by linarith)]
  have hb := @interp_bounds Y0 Y1 (3 * (v / H) ^ 2 - 2 * (v / H) ^ 3) hg0 hg1
  exact ⟨le_trans (le_min h0.1 h1.1) hb.1, le_trans hb.2 (max_le h0.2 h1.2)⟩

/-- Hermite evaluation over the extended arrays with an identically zero
tangent array stays within any interval containing all the knot values:
the two edge segments are flat and the interior segments are convex
combinations through the smoothstep cubic. -/
lemma hermite_bounds_of_zero_tangents (z y m : List ℚ) (t lo hi : ℚ)
    (hzy : z.length = y.length) (hn : 1 ≤ y.length)
    (hm : ∀ j, m.getD j 0 = 0)
    (hz : ∀ j, j + 1 < z.length → z.getD j 0 ≤ z.getD (j + 1) 0)
    (hy : ∀ j, j < y.length → lo ≤ y.getD j 0 ∧ y.getD j 0 ≤ hi) :
    lo ≤ hermite (extendKnots z) (extendVals y) m t ∧
    hermite (extendKnots z) (extendVals y) m t ≤ hi := by
  have hIle : searchsorted z t ≤ z.length := searchsorted_le_length z t
  simp only [hermite]
  rw [extend_interior, hm, hm]
  by_cases h0 : searchsorted z t = 0
  · have hY0 : (extendVals y).getD 0 0 = y.getD 0 0 := by
      rw [extendVals_getD_zero, headD_eq_getD]
    have hY1 : (extendVals y).getD (0 + 1) 0 = y.getD 0 0 :=
      extendVals_getD_succ (by omega)
    rw [h0, hY0, hY1, hermite_zero_flat]
    exact hy 0 (by omega)
  · by_cases hN : searchsorted z t = z.length
    · have hney : y ≠ [] := by
        intro h
        rw [h] at hn
        simp at hn
      obtain ⟨q, hq⟩ : ∃ q, y.length = q + 1 := ⟨y.length - 1, by omega⟩
      have hYa : (extendVals y).getD y.length 0 = y.getD (y.length - 1) 0 := by
        rw [hq]
        exact extendVals_getD_succ (by omega)
      have hYb : (extendVals y).getD (y.length + 1) 0
          = y.getD (y.length - 1) 0 := by
        rw [extendVals_getD_last, getLastD_eq_getD y hney]
      rw [hN, hzy, hYa, hYb, hermite_zero_flat]
      exact hy (y.length - 1) (by omega)
    · obtain ⟨j, hj⟩ : ∃ j, searchsorted z t = j + 1 :=
        ⟨searchsorted z t - 1, by omega⟩
      have hjlt : j + 1 < z.length := by
        rcases Nat.lt_or_ge (searchsorted z t) z.length with h | h
        · omega
        · omega
      have hp : z.Pairwise (fun a b => a ≤ b) := pairwise_le_of_steps hz
      have hcount : z.countP (fun a => decide (a < t)) = j + 1 := hj
      have htl : z.getD j 0 < t := countP_lt_lower t z hp j (by omega)
      have htr : t ≤ z.getD (j + 1) 0 :=
        countP_lt_upper t z hp (j + 1) (by omega) (by omega)
      have hXa : (extendKnots z).getD (j + 1) 0 = z.getD j 0 :=
        extendKnots_getD_succ (by omega)
      have hXb : (extendKnots z).getD (j + 1 + 1) 0 = z.getD (j + 1) 0 :=
        extendKnots_getD_succ (by omega)
      have hYa : (extendVals y).getD (j + 1) 0 = y.getD j 0 :=
        extendVals_getD_succ (by omega)
      have hYb : (extendVals y).getD (j + 1 + 1) 0 = y.getD (j + 1) 0 :=
        extendVals_getD_succ (by omega)
      rw [hj, hXa, hXb, hYa, hYb]
      have hgap0 : 0 ≤ z.getD (j + 1) 0 - z.getD j 0 := by
        have := hz j (by omega)
        linarith
      have hHpos : 0 < (if z.getD (j + 1) 0 - z.getD j 0 ≤ 1 / 10 ^ 10
          then (1 : ℚ) / 10 ^ 10 else z.getD (j + 1) 0 - z.getD j 0) := by
        split_ifs with hc
        · norm_num
        · have h2 := not_le.1 hc
          have h3 : (0 : ℚ) < 1 / 10 ^ 10 := by norm_num
          linarith
      have hvH : t - z.getD j 0 ≤ (if z.getD (j + 1) 0 - z.getD j 0 ≤ 1 / 10 ^ 10
          then (1 : ℚ) / 10 ^ 10 else z.getD (j + 1) 0 - z.getD j 0) := by
        split_ifs with hc
        · linarith
        · linarith
      exact hermite_zero_interior _ _ _ _ lo hi hHpos (by linarith) hvH
        (hy j (by omega)) (hy (j + 1) (by omega))

lemma diffL_zero_block : ∀ (k : ℕ),
    diffL ((0 : ℚ) :: (List.replicate k 0 ++ [1, 1]))
      = List.replicate k 0 ++ [1, 0]
  | 0 => by norm_num [diffL]
  | k + 1 => by
    rw [List.replicate_succ, List.cons_append, diffL_cons₂, diffL_zero_block k]
    norm_num [List.replicate_succ, List.cons_append]

lemma extendVals_zero_block (k : ℕ) (hk : 1 ≤ k) :
    extendVals (List.replicate k (0 : ℚ) ++ [1])
      = (0 : ℚ) :: (List.replicate k 0 ++ [1, 1]) := by
  obtain ⟨q, rfl⟩ : ∃ q, k = q + 1 := ⟨k - 1, by omega⟩
  rw [extendVals, getLastD_append_singleton]
  have hh : (List.replicate (q + 1) (0 : ℚ) ++ [1]).headD 0 = 0 := by
    rw [List.replicate_succ, List.cons_append, List.headD_cons]
  rw [hh, List.append_assoc]
  rfl

lemma dy_zero_block (k : ℕ) (hk : 1 ≤ k) :
    diffL (extendVals (List.replicate k (0 : ℚ) ++ [1]))
      = List.replicate k 0 ++ [1, 0] := by
  rw [extendVals_zero_block k hk, diffL_zero_block]

lemma msM0_getD_zero (x y : List ℚ) : (msM0 x y).getD 0 0 = 0 := rfl

lemma msM0_getD_succ (x y : List ℚ) (j : ℕ) (hj : j + 1 < (msDelta x y).length) :
    (msM0 x y).getD (j + 1) 0
      = ((msDelta x y).getD (j + 1) 0 + (msDelta x y).getD j 0) / 2 := by
  have hlen : j < (List.zipWith (fun a b => (a + b) / 2)
      (msDelta x y).tail (msDelta x y)).length := by
    rw [List.length_zipWith, List.length_tail]
    omega
  rw [msM0, List.getD_cons_succ, getD_append_left hlen,
    zipWith_getD (by rw [List.length_tail]; omega) (by omega), tail_getD]

lemma msM0_getD_last (x y : List ℚ) (hxy : x.length = y.length) :
    (msM0 x y).getD (y.length + 1) 0 = 0 := by
  have hlen2 : (List.zipWith (fun a b => (a + b) / 2)
      (msDelta x y).tail (msDelta x y)).length = y.length := by
    rw [List.length_zipWith, List.length_tail, msDelta_length hxy]
    omega
  rw [msM0, List.getD_cons_succ, getD_append_right (by omega), hlen2,
    Nat.sub_self]
  rfl

lemma msDelta_getD {x y : List ℚ} (hxy : x.length = y.length) {j : ℕ}
    (hj : j < y.length + 1) :
    (msDelta x y).getD j 0
      = (diffL (extendVals y)).getD j 0 / (diffL (extendKnots x)).getD j 0 := by
  have h1 : j < (diffL (extendVals y)).length := by
    rw [diffL_length, extendVals_length]
    omega
  have h2 : j < (diffL (extendKnots x)).length := by
    rw [diffL_length, extendKnots_length, hxy]
    omega
  rw [msDelta, zipWith_getD h1 h2]

lemma msAlpha_getD {x y : List ℚ} (hxy : x.length = y.length) {j : ℕ}
    (hj : j < y.length + 1) :
    (msAlpha x y).getD j 0
      = (msM0 x y).getD j 0 / (msDelta x y).getD j 0 := by
  have h1 : j < (msM0 x y).dropLast.length := by
    rw [List.length_dropLast, msM0_length hxy]
    omega
  have h2 : j < (msDelta x y).length := by
    rw [msDelta_length hxy]
    omega
  rw [msAlpha, zipWith_getD h1 h2,
    dropLast_getD _ _ (by rw [msM0_length hxy]; omega)]

lemma msBeta_getD {x y : List ℚ} (hxy : x.length = y.length) {j : ℕ}
    (hj : j < y.length + 1) :
    (msBeta x y).getD j 0
      = (msM0 x y).getD (j + 1) 0 / (msDelta x y).getD j 0 := by
  have h1 : j < (msM0 x y).tail.length := by
    rw [List.length_tail, msM0_length hxy]
    omega
  have h2 : j < (msDelta x y).length := by
    rw [msDelta_length hxy]
    omega
  rw [msBeta, zipWith_getD h1 h2, tail_getD]

lemma msD_getD {x y : List ℚ} (hxy : x.length = y.length) {j : ℕ}
    (hj : j < y.length + 1) :
    (msD x y).getD j 0
      = (msAlpha x y).getD j 0 ^ 2 + (msBeta x y).getD j 0 ^ 2 := by
  have hA : (msAlpha x y).length = y.length + 1 := by
    rw [msAlpha, List.length_zipWith, List.length_dropLast, msM0_length hxy,
      msDelta_length hxy]
    omega
  have hB : (msBeta x y).length = y.length + 1 := by
    rw [msBeta, List.length_zipWith, List.length_tail, msM0_length hxy,
      msDelta_length hxy]
    omega
  rw [msD, zipWith_getD (by omega) (by omega)]

lemma fcStep_zero_branch (rsqrt : ℚ → ℚ) (dy delta alpha beta d m : List ℚ)
    (i : ℕ)
    (h : dy.getD i 0 = 0 ∨ alpha.getD i 0 = 0 ∨ beta.getD i 0 = 0) :
    fcStep rsqrt dy delta alpha beta d m i = (m.set i 0).set (i + 1) 0 := by
  rw [fcStep, if_pos h]

lemma fcStep_no_change (rsqrt : ℚ → ℚ) (dy delta alpha beta d m : List ℚ)
    (i : ℕ)
    (h1 : ¬(dy.getD i 0 = 0 ∨ alpha.getD i 0 = 0 ∨ beta.getD i 0 = 0))
    (h2 : ¬ 9 < d.getD i 0) :
    fcStep rsqrt dy delta alpha beta d m i = m := by
  rw [fcStep, if_neg h1, if_neg h2]

lemma foldl_zero_prefix (rsqrt : ℚ → ℚ) (dy delta alpha beta d : List ℚ) :
    ∀ (k : ℕ) (m : List ℚ), (∀ i, i < k → dy.getD i 0 = 0) →
      (∀ j, k < j →
        ((List.range k).foldl (fcStep rsqrt dy delta alpha beta d) m).getD j 0
          = m.getD j 0) ∧
      (1 ≤ k → ∀ j, j ≤ k →
        ((List.range k).foldl (fcStep rsqrt dy delta alpha beta d) m).getD j 0
          = 0)
  | 0, m, hdy => by
    constructor
    · intro j hj
      rfl
    · intro h
      omega
  | k + 1, m, hdy => by
    have ih := foldl_zero_prefix rsqrt dy delta alpha beta d k m
      (fun i hi => hdy i (by omega))
    rw [List.range_succ, List.foldl_append, List.foldl_cons, List.foldl_nil,
      fcStep_zero_branch rsqrt dy delta alpha beta d _ k
        (Or.inl (hdy k (by omega)))]
    constructor
    · intro j hj
      rw [getD_set_ne (by omega), getD_set_ne (by omega)]
      exact ih.1 j (by omega)
    · intro _ j hj
      rcases Nat.lt_or_ge j k with hlt | hge
      · rw [getD_set_ne (by omega), getD_set_ne (by omega)]
        exact ih.2 (by omega) j (by omega)
      · rcases Nat.eq_or_lt_of_le hge with heq | hlt2
        · rw [← heq, getD_set_ne (by omega)]
          exact getD_set_zero _ _
        · have hje : j = k + 1 := by omega
          subst hje
          exact getD_set_zero _ _

lemma fitTangents_zero_block_zero (rsqrt : ℚ → ℚ) (z : List ℚ)
    (hz : z.length = 1) :
    ∀ j, (fitTangents rsqrt z ([1] : List ℚ)).getD j 0 = 0 := by
  have hzy : z.length = ([1] : List ℚ).length := by simpa using hz
  have hM0len : (msM0 z ([1] : List ℚ)).length = 3 := by
    rw [msM0_length hzy]
    rfl
  have hdyall : ∀ i, i < 2 →
      (diffL (extendVals ([1] : List ℚ))).getD i 0 = 0 := by
    intro i hi
    have hd : diffL (extendVals ([1] : List ℚ)) = [0, 0] := by
      norm_num [extendVals, diffL]
    rw [hd]
    have h2 : i = 0 ∨ i = 1 := by omega
    rcases h2 with rfl | rfl <;> rfl
  intro j
  rw [fitTangents, show (msM0 z ([1] : List ℚ)).length - 1 = 2 from by omega]
  have H := foldl_zero_prefix rsqrt (diffL (extendVals ([1] : List ℚ)))
    (msDelta z [1]) (msAlpha z [1]) (msBeta z [1]) (msD z [1]) 2
    (msM0 z [1]) hdyall
  rcases le_or_lt j 2 with hj | hj
  · exact H.2 (by omega) j hj
  · rw [H.1 j hj]
    exact getD_of_le (by omega)

lemma fitTangents_zero_block_succ (rsqrt : ℚ → ℚ) (z : List ℚ) (k : ℕ)
    (hz : z.length = k + 2) :
    ∀ j, (fitTangents rsqrt z (List.replicate (k + 1) (0 : ℚ) ++ [1])).getD j 0 = 0 := by
  have hylen : ((List.replicate (k + 1) (0 : ℚ) ++ [1]) : List ℚ).length = k + 2 := by simp
  have hzy : z.length = ((List.replicate (k + 1) (0 : ℚ) ++ [1]) : List ℚ).length := by rw [hylen, hz]
  have hM0len : (msM0 z (List.replicate (k + 1) (0 : ℚ) ++ [1])).length = k + 4 := by
    rw [msM0_length hzy, hylen]
  have hdy : diffL (extendVals (List.replicate (k + 1) (0 : ℚ) ++ [1])) = List.replicate (k + 1) 0 ++ [1, 0] :=
    dy_zero_block (k + 1) (by omega)
  have hdylt : ∀ i, i < k + 1 →
      (diffL (extendVals (List.replicate (k + 1) (0 : ℚ) ++ [1]))).getD i 0 = 0 := by
    intro i hi
    rw [hdy, getD_append_left (by simpa using hi), getD_replicate_zero]
  have hdyk : (diffL (extendVals (List.replicate (k + 1) (0 : ℚ) ++ [1]))).getD (k + 1) 0 = 1 := by
    rw [hdy, getD_append_right (by simp), List.length_replicate,
      show k + 1 - (k + 1) = 0 from by omega]
    rfl
  have hdyk1 : (diffL (extendVals (List.replicate (k + 1) (0 : ℚ) ++ [1]))).getD (k + 2) 0 = 0 := by
    rw [hdy, getD_append_right (by simp), List.length_replicate,
      show k + 2 - (k + 1) = 1 from by omega]
    rfl
  have hdelLen : (msDelta z (List.replicate (k + 1) (0 : ℚ) ++ [1])).length = k + 3 := by
    rw [msDelta_length hzy, hylen]
  have hdellt : ∀ i, i < k + 1 → (msDelta z (List.replicate (k + 1) (0 : ℚ) ++ [1])).getD i 0 = 0 := by
    intro i hi
    rw [msDelta_getD hzy (by rw [hylen]; omega), hdylt i hi, zero_div]
  have hdelk1 : (msDelta z (List.replicate (k + 1) (0 : ℚ) ++ [1])).getD (k + 2) 0 = 0 := by
    rw [msDelta_getD hzy (by rw [hylen]; omega), hdyk1, zero_div]
  have hm0a : (msM0 z (List.replicate (k + 1) (0 : ℚ) ++ [1])).getD (k + 1) 0
      = ((msDelta z (List.replicate (k + 1) (0 : ℚ) ++ [1])).getD (k + 1) 0 + 0) / 2 := by
    rw [msM0_getD_succ z (List.replicate (k + 1) (0 : ℚ) ++ [1]) k (by rw [hdelLen]; omega), hdellt k (by omega)]
  have hm0b : (msM0 z (List.replicate (k + 1) (0 : ℚ) ++ [1])).getD (k + 2) 0
      = (0 + (msDelta z (List.replicate (k + 1) (0 : ℚ) ++ [1])).getD (k + 1) 0) / 2 := by
    rw [msM0_getD_succ z (List.replicate (k + 1) (0 : ℚ) ++ [1]) (k + 1) (by rw [hdelLen]; omega), hdelk1]
  have hal : (msAlpha z (List.replicate (k + 1) (0 : ℚ) ++ [1])).getD (k + 1) 0
      = (msM0 z (List.replicate (k + 1) (0 : ℚ) ++ [1])).getD (k + 1) 0 / (msDelta z (List.replicate (k + 1) (0 : ℚ) ++ [1])).getD (k + 1) 0 :=
    msAlpha_getD hzy (by rw [hylen]; omega)
  have hbe : (msBeta z (List.replicate (k + 1) (0 : ℚ) ++ [1])).getD (k + 1) 0
      = (msM0 z (List.replicate (k + 1) (0 : ℚ) ++ [1])).getD (k + 2) 0 / (msDelta z (List.replicate (k + 1) (0 : ℚ) ++ [1])).getD (k + 1) 0 :=
    msBeta_getD hzy (by rw [hylen]; omega)
  have hdd : (msD z (List.replicate (k + 1) (0 : ℚ) ++ [1])).getD (k + 1) 0
      = (msAlpha z (List.replicate (k + 1) (0 : ℚ) ++ [1])).getD (k + 1) 0 ^ 2
        + (msBeta z (List.replicate (k + 1) (0 : ℚ) ++ [1])).getD (k + 1) 0 ^ 2 :=
    msD_getD hzy (by rw [hylen]; omega)
  intro j
  rw [fitTangents, show (msM0 z (List.replicate (k + 1) (0 : ℚ) ++ [1])).length - 1 = k + 3 from by omega]
  rw [show List.range (k + 3) = List.range (k + 2) ++ [k + 2] from by
    rw [show k + 3 = (k + 2) + 1 from rfl, List.range_succ]]
  rw [List.foldl_append, List.foldl_cons, List.foldl_nil]
  rw [show List.range (k + 2) = List.range (k + 1) ++ [k + 1] from by
    rw [show k + 2 = (k + 1) + 1 from rfl, List.range_succ]]
  rw [List.foldl_append, List.foldl_cons, List.foldl_nil]
  have H := foldl_zero_prefix rsqrt (diffL (extendVals (List.replicate (k + 1) (0 : ℚ) ++ [1])))
    (msDelta z (List.replicate (k + 1) (0 : ℚ) ++ [1])) (msAlpha z (List.replicate (k + 1) (0 : ℚ) ++ [1])) (msBeta z (List.replicate (k + 1) (0 : ℚ) ++ [1])) (msD z (List.replicate (k + 1) (0 : ℚ) ++ [1])) (k + 1)
    (msM0 z (List.replicate (k + 1) (0 : ℚ) ++ [1])) hdylt
  rcases eq_or_ne ((msDelta z (List.replicate (k + 1) (0 : ℚ) ++ [1])).getD (k + 1) 0) 0 with hΔ | hΔ
  · have halz : (msAlpha z (List.replicate (k + 1) (0 : ℚ) ++ [1])).getD (k + 1) 0 = 0 := by
      rw [hal, hΔ, div_zero]
    rw [fcStep_zero_branch rsqrt _ _ _ _ _ _ (k + 1) (Or.inr (Or.inl halz))]
    rw [fcStep_zero_branch rsqrt _ _ _ _ _ _ (k + 2) (Or.inl hdyk1)]
    by_cases hj3 : j = k + 3
    · subst hj3
      exact getD_set_zero _ _
    by_cases hj2 : j = k + 2
    · subst hj2
      rw [getD_set_ne (by omega)]
      exact getD_set_zero _ _
    by_cases hj1 : j = k + 1
    · subst hj1
      rw [getD_set_ne (by omega), getD_set_ne (by omega),
        getD_set_ne (by omega)]
      exact getD_set_zero _ _
    rw [getD_set_ne (by omega), getD_set_ne (by omega),
      getD_set_ne (by omega), getD_set_ne (by omega)]
    rcases Nat.lt_or_ge j (k + 1) with hjlt | hjge
    · exact H.2 (by omega) j (by omega)
    · rw [H.1 j (by omega)]
      exact getD_of_le (by omega)
  · have hala : (msAlpha z (List.replicate (k + 1) (0 : ℚ) ++ [1])).getD (k + 1) 0 = 1 / 2 := by
      rw [hal, hm0a, add_zero, div_div,
        mul_comm (2 : ℚ) ((msDelta z (List.replicate (k + 1) (0 : ℚ) ++ [1])).getD (k + 1) 0), ← div_div,
        div_self hΔ]
    have hbeb : (msBeta z (List.replicate (k + 1) (0 : ℚ) ++ [1])).getD (k + 1) 0 = 1 / 2 := by
      rw [hbe, hm0b, zero_add, div_div,
        mul_comm (2 : ℚ) ((msDelta z (List.replicate (k + 1) (0 : ℚ) ++ [1])).getD (k + 1) 0), ← div_div,
        div_self hΔ]
    have hcond : ¬((diffL (extendVals (List.replicate (k + 1) (0 : ℚ) ++ [1]))).getD (k + 1) 0 = 0 ∨
        (msAlpha z (List.replicate (k + 1) (0 : ℚ) ++ [1])).getD (k + 1) 0 = 0 ∨
        (msBeta z (List.replicate (k + 1) (0 : ℚ) ++ [1])).getD (k + 1) 0 = 0) := by
      intro h
      rcases h with h | h | h
      · rw [hdyk] at h
        exact one_ne_zero h
      · rw [hala] at h
        norm_num at h
      · rw [hbeb] at h
        norm_num at h
    have hd9 : ¬ (9 : ℚ) < (msD z (List.replicate (k + 1) (0 : ℚ) ++ [1])).getD (k + 1) 0 := by
      rw [hdd, hala, hbeb]
      norm_num
    rw [fcStep_no_change rsqrt _ _ _ _ _ _ (k + 1) hcond hd9]
    rw [fcStep_zero_branch rsqrt _ _ _ _ _ _ (k + 2) (Or.inl hdyk1)]
    by_cases hj3 : j = k + 3
    · subst hj3
      exact getD_set_zero _ _
    by_cases hj2 : j = k + 2
    · subst hj2
      rw [getD_set_ne (by omega)]
      exact getD_set_zero _ _
    rw [getD_set_ne (by omega), getD_set_ne (by omega)]
    rcases Nat.lt_or_ge j (k + 2) with hjlt | hjge
    · exact H.2 (by omega) j (by omega)
    · rw [H.1 j (by omega)]
      exact getD_of_le (by omega)

lemma fitTangents_zero_block (rsqrt : ℚ → ℚ) (z : List ℚ) (k : ℕ)
    (hz : z.length = k + 1) :
    ∀ j, (fitTangents rsqrt z (List.replicate k (0 : ℚ) ++ [1])).getD j 0
      = 0 := by
  cases k with
  | zero => exact fitTangents_zero_block_zero rsqrt z hz
  | succ k => exact fitTangents_zero_block_succ rsqrt z k hz

/-- C8: for a `FreeInterfaceW` whose `dp` values are all zero (and whose
`dz` values are nonnegative, as the parameter limits require), the terminal
cumulative sum is substituted with `1` before normalizing, so the normalised
fraction array is `k` zeros followed by exactly `1`, no division fault
occurs, every fitted tangent is zero, and the fraction profile stays within
`[0, 1]` at every query position (a degenerate boundary-clamped step). -/
theorem freeInterfaceW_zero_dp_profile (rsqrt : ℚ → ℚ) (L : FreeInterfaceW)
    (hdp : L.dp = List.replicate L.dp.length 0)
    (hlen : L.dz.length = L.dp.length)
    (hdz : ∀ j, j < L.dz.length → 0 ≤ L.dz.getD j 0) :
    L.pArr = List.replicate L.dp.length 0 ++ [1] ∧
    L.pArr.getLastD 0 = 1 ∧
    ∀ t, 0 ≤ L.profileAt rsqrt t ∧ L.profileAt rsqrt t ≤ 1 := by
  have hp := pArr_zero_dp L hdp
  refine ⟨hp, ?_, ?_⟩
  · rw [hp, getLastD_append_singleton]
  · intro t
    rw [FreeInterfaceW.profileAt, monospline, hp]
    apply hermite_bounds_of_zero_tangents
    · rw [zArr_length, hlen]
      simp only [List.length_append, List.length_replicate, List.length_cons,
        List.length_nil]
    · simp only [List.length_append, List.length_replicate, List.length_cons,
        List.length_nil]
      omega
    · exact fitTangents_zero_block rsqrt L.zArr L.dp.length
        (by rw [zArr_length, hlen])
    · exact zArr_steps L hdz
    · intro j hj
      simp only [List.length_append, List.length_replicate, List.length_cons,
        List.length_nil] at hj
      rcases Nat.lt_or_ge j L.dp.length with hjl | hjg
      · rw [getD_append_left (by simpa using hjl), getD_replicate_zero]
        norm_num
      · have hje : j = L.dp.length := by omega
        subst hje
        rw [getD_append_right (by simp), List.length_replicate, Nat.sub_self]
        norm_num [List.getD]

/-- C8 witness: `dp = [0, 0]`, `dz = [2, 3]`; query inside the layer. -/
theorem freeInterfaceW_zero_dp_profile_witness :
    (FreeInterfaceW.mk [2, 3] [0, 0]).pArr = List.replicate 2 0 ++ [1] ∧
    0 ≤ (FreeInterfaceW.mk [2, 3] [0, 0]).profileAt sqrtVals 4 ∧
    (FreeInterfaceW.mk [2, 3] [0, 0]).profileAt sqrtVals 4 ≤ 1 := by
  have h := freeInterfaceW_zero_dp_profile sqrtVals ⟨[2, 3], [0, 0]⟩ rfl rfl
    (by
      intro j hj
      simp only [List.length_cons, List.length_nil] at hj
      have hj2 : j = 0 ∨ j = 1 := by omega
      rcases hj2 with rfl | rfl <;> norm_num [List.getD])
  exact ⟨h.1, (h.2.2 4).1, (h.2.2 4).2⟩
